import Mathlib

/-!
Verification of the GovGen Election and Nomination engine
(src/core/voting.py, src/core/voting_manager.py) against its
natural-language specification.

The Python classes are shallowly embedded: every `VotingSystem` subclass
becomes a pure function over the `Election` record, exceptions become
`Except String`, and the process-wide randomness source (random.choice)
becomes an explicit selector `pick : List String -> Nat` giving the index
chosen from the presented list, as the specification requires the source
to be substitutable.  Machine integers are `Int`/`Nat` (years are `Int`,
counts are `Nat`).  The `Government` class is not part of the provided
sources; per the specification it is an external collaborator (role
ledger, identity source), so the few fields the engine reads from it are
modelled from the spec, as noted on `Gov`.
-/

namespace GovGen

/-- The three concrete voting-algorithm variants of voting.py. -/
inductive Variant
  | fptp
  | ranked
  | runoff
deriving DecidableEq, Repr

/-- Modelled from the spec: the external role ledger and identity source
(class Government, not among the provided sources).  `players` is the
set of valid identities; `assignments` maps an office to the list of its
current holders; `titleAppointer` is the per-office appointer entry of
the office-configuration table used by can_appoint. -/
structure Gov where
  players : List String
  assignments : List (String × List String)
  titleAppointer : List (String × String) := []
deriving DecidableEq, Repr

/-- government.assignments.get(role, []). -/
def holdersOf (g : Gov) (role : String) : List String :=
  ((g.assignments.find? (fun p => p.1 == role)).map (fun p => p.2)).getD []

/-- Modelled from the spec: government.is_player_assigned - the candidate
already holds this office. -/
def isPlayerAssigned (g : Gov) (name role : String) : Bool :=
  (holdersOf g role).contains name

/-- State of one `VotingSystem` instance (one Election, bound to one seat).
Ballot dictionaries keep insertion order, embedded as association lists.
`votes` serves the fptp and runoff variants; `rankedVotes` serves the
ranked variant (the Python class stores the comma-join of the preference
list and splits it again in get_result; the embedding keeps the list,
eliding that round trip, which is faithful for comma-free names). -/
structure Election where
  variant : Variant
  eid : Nat := 0
  role : String
  seatNumber : Nat := 0
  forceVote : Bool := true
  nominationControl : String := "time_based"
  nominationDuration : Int := 1
  nominationStarterRole : Option String := none
  nominationCloserRole : Option String := none
  nominationMethod : String := "open"
  nominations : List String := []
  votes : List (String × String) := []
  rankedVotes : List (String × List String) := []
  votingActive : Bool := false
  candidates : List String := []
  players : List String := []
  isNominationOpen : Bool := false
  nominationStartYear : Option Int := none
  votingStartYear : Option Int := none
  finalists : List String := []
  firstRound : Bool := true
deriving DecidableEq, Repr

/-- Python truthiness of an optional string (None and the empty string are
falsy), used by the nomination starter/closer checks. -/
def optStrFalsy : Option String → Bool
  | none => true
  | some s => s == ""

/-- VotingSystem.start_nominations. -/
def startNominations (e : Election) (currentYear : Int) : Except String Election :=
  if e.isNominationOpen then .error "nominations already open"
  else if e.nominationControl == "command_based" && optStrFalsy e.nominationStarterRole then
    .error "no starter role defined"
  else .ok { e with
    isNominationOpen := true
    nominationStartYear := some currentYear
    nominations := [] }

/-- VotingSystem.close_nominations. -/
def closeNominations (e : Election) : Except String Election :=
  if !e.isNominationOpen then .error "nominations are not open"
  else .ok { e with isNominationOpen := false, nominationStartYear := none }

/-- VotingSystem.is_nomination_period_over. -/
def isNominationPeriodOver (e : Election) (currentYear : Int) : Bool :=
  if e.nominationControl != "time_based" || !e.isNominationOpen then false
  else match e.nominationStartYear with
    | none => false
    | some y0 => currentYear - y0 ≥ e.nominationDuration

/-- VotingSystem.can_appoint. -/
def canAppoint (g : Gov) (e : Election) (player role : String) : Bool :=
  if e.nominationMethod != "appointed" then false
  else match (g.titleAppointer.find? (fun p => p.1 == role)).map (fun p => p.2) with
    | none => false
    | some a =>
      if a == "anyone" then true
      else if a == "" then false
      else (holdersOf g a).contains player

/-- VotingSystem.nominate. -/
def nominate (g : Gov) (e : Election) (player cand : String) : Except String Election :=
  if !e.isNominationOpen then .error "nominations are not open"
  else if e.votingActive then .error "cannot nominate while voting is active"
  else if e.nominationMethod == "self_appointed" && player != cand then
    .error "only self-nomination is allowed"
  else if e.nominationMethod == "appointed" && !canAppoint g e player e.role then
    .error "not authorized to nominate"
  else if e.nominations.contains cand then .error "already nominated"
  else if !g.players.contains cand then .error "not a valid player"
  else if isPlayerAssigned g cand e.role then .error "already assigned"
  else .ok { e with nominations := e.nominations ++ [cand] }

/-- VotingSystem.can_start_nominations. -/
def canStartNominations (g : Gov) (e : Election) (player : String) : Bool :=
  if e.nominationControl != "command_based" || optStrFalsy e.nominationStarterRole then false
  else (holdersOf g (e.nominationStarterRole.getD "")).contains player

/-- VotingSystem.can_close_nominations. -/
def canCloseNominations (g : Gov) (e : Election) (player : String) : Bool :=
  if e.nominationControl != "command_based" || optStrFalsy e.nominationCloserRole then false
  else (holdersOf g (e.nominationCloserRole.getD "")).contains player

/-- VotingSystem.start_vote: no precondition of its own; records the
eligible-voter roster, the candidate list and the voting start year and
activates voting. -/
def startVote (e : Election) (players candidates : List String) (currentYear : Int) : Election :=
  { e with
    votingActive := true
    candidates := candidates
    players := players
    votingStartYear := some currentYear }

/-- random.choice(l) with the substitutable randomness source `pick`
selecting the index. -/
def pickFrom (pick : List String → Nat) (l : List String) : String :=
  l.getD (pick l % l.length) ""

/-- Number of ballots naming `cand` (sum over the vote dictionary). -/
def wins (votes : List (String × String)) (cand : String) : Nat :=
  (votes.filter (fun v => v.2 == cand)).length

/-- Python max over a nonempty list of Nats (0 on the empty list, which
Python would reject). -/
def maxList : List Nat → Nat
  | [] => 0
  | a :: as => as.foldl max a

/-- Python min over a nonempty list of Nats (0 on the empty list, which
Python would reject). -/
def minList : List Nat → Nat
  | [] => 0
  | a :: as => as.foldl min a

/-- First key of the count table attaining `target`, as Python
max(d, key=d.get) returns the first maximal key in insertion order. -/
def argmaxKey (counts : List (String × Nat)) (target : Nat) : String :=
  ((counts.find? (fun pr => pr.2 == target)).map (fun pr => pr.1)).getD ""

/-- FirstPastThePost.vote. -/
def fptpVote (e : Election) (player cand : String) : Except String Election :=
  if !e.votingActive then .error "Voting is not active"
  else if !e.candidates.contains cand then .error "not a valid candidate"
  else if (e.votes.find? (fun v => v.1 == player)).isSome then .error "has already voted"
  else .ok { e with votes := e.votes ++ [(player, cand)] }

/-- FirstPastThePost.is_complete(sim): the vote completes once the year
has advanced strictly past the recorded voting start year. -/
def fptpIsComplete (e : Election) (currentYear : Int) : Bool :=
  match e.votingStartYear with
  | none => false
  | some y0 => currentYear > y0

/-- RankedChoiceVoting.is_complete(): everyone has voted, or force_vote
is off and at least one ballot exists.  It consults no year. -/
def rankedIsComplete (e : Election) : Bool :=
  e.rankedVotes.length == e.players.length || (!e.forceVote && e.rankedVotes.length > 0)

/-- TwoRoundRunoffVoting.is_complete(): same ballot-count rule as the
ranked variant, no year consulted. -/
def runoffIsComplete (e : Election) : Bool :=
  e.votes.length == e.players.length || (!e.forceVote && e.votes.length > 0)

/-- The call voting_manager.process_votes makes: vote.is_complete(self.sim).
Only FirstPastThePost.is_complete accepts the simulation argument; the
ranked and runoff overrides take no argument, so the call raises
TypeError for those variants. -/
def managerIsComplete (e : Election) (currentYear : Int) : Except String Bool :=
  match e.variant with
  | .fptp => .ok (fptpIsComplete e currentYear)
  | .ranked => .error "TypeError: is_complete() takes 1 positional argument but 2 were given"
  | .runoff => .error "TypeError: is_complete() takes 1 positional argument but 2 were given"

/-- FirstPastThePost.get_result. -/
def fptpGetResult (e : Election) (pick : List String → Nat) : String :=
  if e.votes.isEmpty then pickFrom pick e.candidates
  else
    let voteCounts := e.candidates.map (fun c => (c, wins e.votes c))
    let maxVotes := maxList (voteCounts.map (fun pr => pr.2))
    let winners := (voteCounts.filter (fun pr => pr.2 == maxVotes)).map (fun pr => pr.1)
    pickFrom pick winners

/-- Lexicographic code-point comparison of character lists, the order
Python uses on strings. -/
def lexLe : List Char → List Char → Bool
  | [], _ => true
  | _ :: _, [] => false
  | x :: xs, y :: ys =>
    if x.toNat < y.toNat then true
    else if y.toNat < x.toNat then false
    else lexLe xs ys

/-- Python string comparison. -/
def strLe (a b : String) : Bool := lexLe a.toList b.toList

/-- Python sorted on strings (ascending lexicographic, stable); used
only to compare two lists for multiset equality, as
RankedChoiceVoting.vote does. -/
def strSort (l : List String) : List String :=
  l.insertionSort (fun a b => strLe a b = true)

/-- RankedChoiceVoting.vote. -/
def rankedVote (e : Election) (player : String) (preferences : List String) :
    Except String Election :=
  if !e.votingActive then .error "Voting is not active"
  else if preferences.length != e.candidates.length then
    .error "Invalid number of preferences"
  else if strSort preferences != strSort e.candidates then
    .error "Preferences must include all candidates"
  else if (e.rankedVotes.find? (fun v => v.1 == player)).isSome then
    .error "has already voted"
  else .ok { e with rankedVotes := e.rankedVotes ++ [(player, preferences)] }

/-- Runs a cast-ballot attempt: the state after the call, which is the
unchanged election when the call raised. -/
def runRankedVote (e : Election) (player : String) (preferences : List String) : Election :=
  match rankedVote e player preferences with
  | .ok e2 => e2
  | .error _ => e

/-- The highest-ranked not-yet-eliminated candidate of one ranked ballot. -/
def firstPref (elim : List String) (prefs : List String) : Option String :=
  prefs.find? (fun c => decide (c ∉ elim))

/-- Current top choices of all ballots: each ballot contributes its
highest-ranked non-eliminated candidate, in ballot order. -/
def topChoices (ballots : List (List String)) (elim : List String) : List String :=
  ballots.filterMap (firstPref elim)

/-- Keys of the tabulation dictionary in insertion order: first
occurrence order of the top choices. -/
def keysInOrder : List String → List String
  | [] => []
  | c :: rest => c :: keysInOrder (rest.filter (fun x => x != c))
termination_by l => l.length
decreasing_by
  simp only [List.length_cons]
  exact Nat.lt_succ_of_le (List.length_filter_le _ _)

/-- The vote_counts dictionary of one tabulation round. -/
def tallyOf (ballots : List (List String)) (elim : List String) : List (String × Nat) :=
  (keysInOrder (topChoices ballots elim)).map
    (fun c => (c, (topChoices ballots elim).count c))

/-- Outcome of one iteration of the instant-runoff while loop. -/
inductive RoundOutcome
  | empty
  | winner (w : String)
  | eliminate (grp : List String)
deriving DecidableEq, Repr

/-- One iteration of RankedChoiceVoting.get_result: tabulate; if no
ballot counts, fall back; if the leader holds a strict majority, declare
it; otherwise report the minimum-vote group for random elimination. -/
def rcvRound (ballots : List (List String)) (elim : List String) : RoundOutcome :=
  let tops := topChoices ballots elim
  if tops.isEmpty then .empty
  else
    let counts := tallyOf ballots elim
    let maxVotes := maxList (counts.map (fun pr => pr.2))
    let total := (counts.map (fun pr => pr.2)).foldl (· + ·) 0
    if 2 * maxVotes > total then .winner (argmaxKey counts maxVotes)
    else
      let minVotes := minList (counts.map (fun pr => pr.2))
      .eliminate ((counts.filter (fun pr => pr.2 == minVotes)).map (fun pr => pr.1))

/-- The while loop of RankedChoiceVoting.get_result, with explicit fuel:
each recursive call is one elimination round.  The Python loop is
unbounded; the termination theorem shows fuel equal to the number of
candidates always suffices. -/
def rcvLoop (cands : List String) (ballots : List (List String))
    (pick : List String → Nat) : List String → Nat → Option String
  | _, 0 => none
  | elim, fuel + 1 =>
    match rcvRound ballots elim with
    | .empty => some (pickFrom pick cands)
    | .winner w => some w
    | .eliminate grp => rcvLoop cands ballots pick (elim ++ [pickFrom pick grp]) fuel

/-- RankedChoiceVoting.get_result. -/
def rcvGetResult (e : Election) (pick : List String → Nat) : Option String :=
  rcvLoop e.candidates (e.rankedVotes.map (fun v => v.2)) pick [] (e.candidates.length + 1)

/-- Python `a or b` on lists: b when a is empty.  TwoRoundRunoffVoting
uses `self.finalists or self.candidates` as the current candidate pool. -/
def listOrElse (a b : List String) : List String :=
  if a.isEmpty then b else a

/-- TwoRoundRunoffVoting.vote. -/
def runoffVote (e : Election) (player cand : String) : Except String Election :=
  if !e.votingActive then .error "Voting is not active"
  else if !(listOrElse e.finalists e.candidates).contains cand then
    .error "not a valid candidate"
  else if (e.votes.find? (fun v => v.1 == player)).isSome then .error "has already voted"
  else .ok { e with votes := e.votes ++ [(player, cand)] }

/-- The vote_counts dictionary of TwoRoundRunoffVoting.get_result:
per-candidate ballot counts over the current pool. -/
def trrCounts (e : Election) : List (String × Nat) :=
  (listOrElse e.finalists e.candidates).map (fun c => (c, wins e.votes c))

/-- max(vote_counts.values()) of the runoff tally. -/
def trrMax (e : Election) : Nat :=
  maxList ((trrCounts e).map (fun pr => pr.2))

/-- sum(vote_counts.values()) of the runoff tally. -/
def trrTotal (e : Election) : Nat :=
  ((trrCounts e).map (fun pr => pr.2)).foldl (· + ·) 0

/-- The descending-by-count order on tally entries. -/
def descByCount (a b : String × Nat) : Prop := b.2 ≤ a.2

instance : DecidableRel descByCount := fun a b => Nat.decLe b.2 a.2

instance : IsTotal (String × Nat) descByCount := ⟨fun a b => Nat.le_total b.2 a.2⟩

instance : IsTrans (String × Nat) descByCount := ⟨fun _ _ _ h1 h2 => Nat.le_trans h2 h1⟩

/-- sorted(vote_counts, key=vote_counts.get, reverse=True): keys by
descending count; Python sorting is stable, and insertion sort places
each earlier entry before later entries of equal count, so keys tied on
count keep dictionary (candidate-list) order here as well. -/
def trrSortedDesc (e : Election) : List (String × Nat) :=
  (trrCounts e).insertionSort descByCount

/-- TwoRoundRunoffVoting.get_result, returning the result string together
with the mutated election: the runoff branch records the first two keys
of the descending-sorted tally as finalists, ends the first round and
clears the ballots. -/
def trrGetResult (e : Election) (pick : List String → Nat) : String × Election :=
  if e.votes.isEmpty then (pickFrom pick (listOrElse e.finalists e.candidates), e)
  else if 2 * trrMax e > trrTotal e then (argmaxKey (trrCounts e) (trrMax e), e)
  else if e.finalists.isEmpty then
    ("RUNOFF", { e with
      finalists := ((trrSortedDesc e).map (fun pr => pr.1)).take 2
      firstRound := false
      votes := [] })
  else
    (pickFrom pick (((trrCounts e).filter (fun pr => pr.2 == trrMax e)).map (fun pr => pr.1)), e)

/-- One row of the office-configuration table
(government_type.title_requirements), with the default values
voting_manager.initiate_votes supplies via .get. -/
structure RoleReq where
  selectionMethod : String := ""
  maxHolders : Nat := 1
  votingSystem : String := "first_past_the_post"
  forceVote : Bool := false
  nominationControl : String := "time_based"
  nominationDuration : Int := 1
  nominationMethod : String := "open"
  nominationStarterRole : Option String := none
  nominationCloserRole : Option String := none
  innovations : List String := []
deriving DecidableEq, Repr

/-- VOTING_SYSTEMS lookup of initiate_votes; the configuration tables use
exactly the three registered names. -/
def variantOf (name : String) : Variant :=
  if name == "ranked_choice" then .ranked
  else if name == "two_round_runoff" then .runoff
  else .fptp

/-- State of the VotingManager together with the external collaborators
the engine reads: the configuration table, the role ledger `gov`, the
discovered-innovation labels, the player roster and the clock.  `nextId`
issues fresh identities for election objects (Python object identity,
used by list.remove).  The vote_interfaces dictionary is omitted: it
only routes display and input and never influences election or queue
state. -/
structure MState where
  titleRequirements : List (String × RoleReq)
  gov : Gov
  discovered : List String
  simPlayers : List String
  currentYear : Int
  activeVotes : List Election
  queuedSeats : List (String × List Nat)
  nextId : Nat := 0
deriving DecidableEq, Repr

/-- queued_seats.get(role, []). -/
def qLookup (q : List (String × List Nat)) (role : String) : List Nat :=
  ((q.find? (fun p => p.1 == role)).map (fun p => p.2)).getD []

/-- Store a role entry in the queued-seats dictionary. -/
def qSet : List (String × List Nat) → String → List Nat → List (String × List Nat)
  | [], role, l => [(role, l)]
  | p :: q, role, l => if p.1 == role then (role, l) :: q else p :: qSet q role l

/-- Number of active elections for a role. -/
def countActiveForRole (s : MState) (role : String) : Nat :=
  (s.activeVotes.filter (fun v => v.role == role)).length

/-- Whether some active election of the role has its nominations open. -/
def anyOpenNomForRole (s : MState) (role : String) : Bool :=
  s.activeVotes.any (fun v => v.role == role && v.isNominationOpen)

/-- Python range(a, b + 1). -/
def seatRange (a b : Nat) : List Nat :=
  (List.range (b + 1 - a)).map (fun i => i + a)

/-- The election object initiate_votes constructs for a popped seat:
the VOTING_SYSTEMS constructor call, set_nomination_method, and - for
time_based control - the immediate start_nominations(current_year). -/
def newElection (role : String) (req : RoleReq) (seat : Nat) (year : Int)
    (eid : Nat) : Election :=
  let e : Election :=
    { variant := variantOf req.votingSystem
      eid := eid
      role := role
      seatNumber := seat
      forceVote := req.forceVote
      nominationControl := req.nominationControl
      nominationDuration := req.nominationDuration
      nominationStarterRole := req.nominationStarterRole
      nominationCloserRole := req.nominationCloserRole
      nominationMethod := req.nominationMethod }
  if req.nominationControl == "time_based" then
    { e with isNominationOpen := true, nominationStartYear := some year, nominations := [] }
  else e

/-- The initiate_votes guard for one configuration row: selection by
voting, positive vacancy count (max_holders - holders - active votes for
the role) and all required innovations discovered. -/
def roleGate (s : MState) (role : String) (req : RoleReq) : Bool :=
  req.selectionMethod == "voting" &&
  decide (0 < req.maxHolders - (holdersOf s.gov role).length - countActiveForRole s role) &&
  req.innovations.all (fun i => s.discovered.contains i)

/-- queued_seats.setdefault(role, []).extend(range(holders + active + 1,
max_holders + 1)). -/
def extendQueue (s : MState) (role : String) (req : RoleReq) : MState :=
  { s with
    queuedSeats :=
      qSet s.queuedSeats role
        (qLookup s.queuedSeats role ++
          seatRange ((holdersOf s.gov role).length + countActiveForRole s role + 1)
            req.maxHolders) }

/-- Pop the front queued seat of the role and create its election. -/
def popAndCreate (s : MState) (role : String) (req : RoleReq) : MState :=
  match qLookup s.queuedSeats role with
  | [] => s
  | seat :: rest =>
    let s2 := { s with queuedSeats := qSet s.queuedSeats role rest }
    { s2 with
      activeVotes := s2.activeVotes ++ [newElection role req seat s2.currentYear s2.nextId]
      nextId := s2.nextId + 1 }

/-- The body of the initiate_votes loop for one configuration row:
when the gate passes, queue the vacant seats, and - if the queue is
non-empty and the role has no open nomination - pop the front seat and
create its election. -/
def processRole (s : MState) (entry : String × RoleReq) : MState :=
  if roleGate s entry.1 entry.2 then
    if !(qLookup (extendQueue s entry.1 entry.2).queuedSeats entry.1).isEmpty &&
        !anyOpenNomForRole (extendQueue s entry.1 entry.2) entry.1 then
      popAndCreate (extendQueue s entry.1 entry.2) entry.1 entry.2
    else extendQueue s entry.1 entry.2
  else s

/-- VotingManager.initiate_votes: one processRole pass over every
configuration row, in table order. -/
def initiateVotes (s : MState) : MState :=
  s.titleRequirements.foldl processRole s

/-- The failure path of process_votes: queued_seats.setdefault(role,
[]).insert(0, seat). -/
def requeueFront (s : MState) (role : String) (seat : Nat) : MState :=
  { s with queuedSeats := qSet s.queuedSeats role (seat :: qLookup s.queuedSeats role) }

/-- active_votes.remove(vote), by object identity. -/
def removeElection (s : MState) (eid : Nat) : MState :=
  { s with activeVotes := s.activeVotes.filter (fun v => v.eid != eid) }

/-- Reflect a mutation of an election object in the manager state. -/
def updateElection (s : MState) (e : Election) : MState :=
  { s with activeVotes := s.activeVotes.map (fun v => if v.eid == e.eid then e else v) }

/-- Modelled from the spec: the role ledger assign operation - success
appends the winner to the office holder list.  Whether the ledger
accepts is decided by the external oracle below. -/
def addHolder (g : Gov) (role name : String) : Gov :=
  { g with assignments :=
      if (g.assignments.find? (fun p => p.1 == role)).isSome then
        g.assignments.map (fun p => if p.1 == role then (p.1, p.2 ++ [name]) else p)
      else g.assignments ++ [(role, [name])] }

/-- Modelled from the spec: the outcome of the external ledger commit
(government.assign_role), given the role and the winner name.  The
ledger may accept or reject; the engine only branches on the outcome. -/
def Oracle : Type := String → String → Bool

/-- The resolution tail shared by both commit sites of process_votes:
commit the winner through the ledger, requeue the seat at the front on
failure, retire the election, and re-scan when the queue of the role is
non-empty. -/
def commitWinner (oracle : Oracle) (s : MState) (v : Election)
    (winnerName : String) : Except String MState :=
  if !s.simPlayers.contains winnerName then
    .error "StopIteration: winner is not among the players"
  else
    let s1 :=
      if oracle v.role winnerName then { s with gov := addHolder s.gov v.role winnerName }
      else requeueFront s v.role v.seatNumber
    let s2 := removeElection s1 v.eid
    if !(qLookup s2.queuedSeats v.role).isEmpty then .ok (initiateVotes s2)
    else .ok s2

/-- The voting-resolution step of the process_votes body (its final if):
only reached with voting active; the is_complete(self.sim) call raises
TypeError for the ranked and runoff variants, so only the
first-past-the-post variant ever resolves. -/
def resolveStep (pick : List String → Nat) (oracle : Oracle) (s : MState)
    (v : Election) : Except String MState :=
  if v.votingActive then
    match managerIsComplete v s.currentYear with
    | .error msg => .error msg
    | .ok complete =>
      if complete then commitWinner oracle s v (fptpGetResult v pick)
      else .ok s
  else .ok s

/-- The body of the process_votes loop for one snapshot entry: close a
time-based nomination whose period elapsed; when nominations are closed
and voting inactive, resolve the single-candidate case directly, start
voting with two or more candidates, or retire and requeue with zero
candidates; finally resolve a completed vote. -/
def processOne (pick : List String → Nat) (oracle : Oracle) (s : MState)
    (eid : Nat) : Except String MState :=
  match s.activeVotes.find? (fun v => v.eid == eid) with
  | none => .ok s
  | some v0 =>
    let v :=
      if v0.isNominationOpen && v0.nominationControl == "time_based" &&
          isNominationPeriodOver v0 s.currentYear then
        { v0 with isNominationOpen := false, nominationStartYear := none }
      else v0
    let s1 := updateElection s v
    if !v.isNominationOpen && !v.votingActive then
      let cands := v.nominations
      if cands.length == 1 then
        commitWinner oracle s1 v (cands.headD "")
      else if cands.length > 1 then
        let v2 := startVote v s1.simPlayers cands s1.currentYear
        resolveStep pick oracle (updateElection s1 v2) v2
      else
        let s2 := requeueFront (removeElection s1 v.eid) v.role v.seatNumber
        .ok (initiateVotes s2)
    else resolveStep pick oracle s1 v

/-- VotingManager.process_votes: iterate the loop body over a snapshot
of the active-vote list (Python active_votes[:]); elections the body
appends meanwhile are not visited in the same pass. -/
def processVotes (pick : List String → Nat) (oracle : Oracle) (s : MState) :
    Except String MState :=
  (s.activeVotes.map (fun v => v.eid)).foldlM (processOne pick oracle) s

/-- Apply an election-level operation to the election with the given
identity and keep the state unchanged when the operation raises; used to
express player commands (nominate) in traces. -/
def mDo (s : MState) (eid : Nat) (f : Election → Except String Election) : MState :=
  match s.activeVotes.find? (fun v => v.eid == eid) with
  | none => s
  | some e =>
    match f e with
    | .ok e2 => updateElection s e2
    | .error _ => s

/-- The year advance of the external clock. -/
def withYear (s : MState) (y : Int) : MState :=
  { s with currentYear := y }

/-- One mutation of a live election, with one constructor per mutating
call site of the program: process_votes closing an elapsed time-based
nomination; the leadership close-nominations and start-nominations
commands of interfaces.py, with their eligibility filters; the nominate
command; process_votes starting the vote once nominations are closed
with two or more candidates; and ballot casting through handle_vote,
dispatched per variant.  The runoff-restart site of process_votes is
guarded by vote.is_complete(self.sim), which raises TypeError for the
runoff variant (managerIsComplete), so it contributes no step.
Resolution retires an election rather than mutating it. -/
inductive EStep : Election → Election → Prop
  | closeTime (e e2 : Election) (y : Int) :
      isNominationPeriodOver e y = true →
      closeNominations e = .ok e2 → EStep e e2
  | closeCmd (g : Gov) (e e2 : Election) (p : String) :
      e.nominationControl = "command_based" →
      canCloseNominations g e p = true →
      e.isNominationOpen = true →
      closeNominations e = .ok e2 → EStep e e2
  | startCmd (g : Gov) (e e2 : Election) (p : String) (y : Int) :
      e.nominationControl = "command_based" →
      canStartNominations g e p = true →
      e.isNominationOpen = false →
      startNominations e y = .ok e2 → EStep e e2
  | nomStep (g : Gov) (e e2 : Election) (p c : String) :
      nominate g e p c = .ok e2 → EStep e e2
  | startV (e : Election) (players : List String) (y : Int) :
      e.isNominationOpen = false → e.votingActive = false →
      1 < e.nominations.length →
      EStep e (startVote e players e.nominations y)
  | castF (e e2 : Election) (p c : String) :
      e.variant = .fptp → fptpVote e p c = .ok e2 → EStep e e2
  | castR (e e2 : Election) (p : String) (prefs : List String) :
      e.variant = .ranked → rankedVote e p prefs = .ok e2 → EStep e e2
  | castT (e e2 : Election) (p c : String) :
      e.variant = .runoff → runoffVote e p c = .ok e2 → EStep e e2

/-- An election as initiate_votes creates it. -/
def EInit (e : Election) : Prop :=
  ∃ role req seat year eid, e = newElection role req seat year eid

/-- An election state reachable from creation through program call sites. -/
def EReach (e : Election) : Prop :=
  ∃ e0, EInit e0 ∧ Relation.ReflTransGen EStep e0 e

/-- A randomness source that always selects the first entry. -/
def pick0 : List String → Nat := fun _ => 0

/-- A ledger oracle that rejects every commit. -/
def oracleF : Oracle := fun _ _ => false

/-- One office, two seats, first-past-the-post, time-based nominations
of duration one year; no gated innovations. -/
def reqTwoSeat : RoleReq := { selectionMethod := "voting", maxHolders := 2 }

/-- Initial manager state of the two-seat office scenario. -/
def mgr0 : MState :=
  { titleRequirements := [("chieftain", reqTwoSeat)]
    gov := { players := ["Alice", "Bob", "Carol"], assignments := [] }
    discovered := []
    simPlayers := ["Alice", "Bob", "Carol"]
    currentYear := 0
    activeVotes := []
    queuedSeats := [] }

/-- Year-0 scan: queues seats 1 and 2, pops seat 1 and opens its
nominations. -/
def mgrA : MState := initiateVotes mgr0

/-- Bob and Carol are nominated for seat 1. -/
def mgrB : MState :=
  let t := mDo mgrA 0 (fun e => nominate mgrA.gov e "Alice" "Bob")
  mDo t 0 (fun e => nominate t.gov e "Alice" "Carol")

/-- Year 1 pass: process_votes closes the seat-1 nominations and starts
its vote; the year-boundary rescan then queues seat 2 again and opens a
seat-2 election. -/
def mgrC : MState :=
  let t := withYear mgrB 1
  let t2 := match processVotes pick0 oracleF t with | .ok u => u | .error _ => t
  initiateVotes t2

/-- The year-2 state, just before the pass in which the seat-1 commit
fails. -/
def mgrD : MState := withYear mgrC 2

/-- The year-2 process_votes pass under a ledger that rejects the
seat-1 winner. -/
def mgrE : Except String MState := processVotes pick0 oracleF mgrD

/-- The state the year-2 pass produced. -/
def mgrE2 : MState :=
  match mgrE with
  | .ok st => st
  | .error _ => mgrD

/-- A ranked-choice election in mid-vote: voting opened in year 5 and
both players cast their full rankings within the same year. -/
def eC1 : Election :=
  { variant := .ranked
    role := "elder"
    seatNumber := 1
    forceVote := true
    votingActive := true
    candidates := ["Bob", "Carol"]
    players := ["Alice", "Bob"]
    votingStartYear := some 5
    rankedVotes := [("Alice", ["Bob", "Carol"]), ("Bob", ["Carol", "Bob"])] }

/-- Ledger for the command-based scenarios: Alice holds the chieftain
office, which is both starter and closer for the elder election. -/
def govCmd : Gov :=
  { players := ["Alice", "Bob", "Carol", "Dan"]
    assignments := [("chieftain", ["Alice"])] }

/-- A command-controlled elder office with the chieftain as nomination
starter and closer. -/
def reqCmd : RoleReq :=
  { selectionMethod := "voting"
    maxHolders := 1
    nominationControl := "command_based"
    nominationStarterRole := some "chieftain"
    nominationCloserRole := some "chieftain" }

/-- The command-based elder election as initiate_votes creates it
(nominations not yet started). -/
def eCmd0 : Election := newElection "elder" reqCmd 1 0 0

/-- After the chieftain starts nominations. -/
def eCmd1 : Election :=
  match startNominations eCmd0 0 with | .ok x => x | .error _ => eCmd0

/-- After Bob is nominated. -/
def eCmd2 : Election :=
  match nominate govCmd eCmd1 "Alice" "Bob" with | .ok x => x | .error _ => eCmd1

/-- After Carol is nominated. -/
def eCmd3 : Election :=
  match nominate govCmd eCmd2 "Alice" "Carol" with | .ok x => x | .error _ => eCmd2

/-- After the chieftain closes nominations. -/
def eCmd4 : Election :=
  match closeNominations eCmd3 with | .ok x => x | .error _ => eCmd3

/-- After process_votes starts the vote between Bob and Carol. -/
def eCmd5 : Election :=
  startVote eCmd4 ["Alice", "Bob", "Carol", "Dan"] eCmd4.nominations 1

/-- After the chieftain issues start_nominations again, mid-vote. -/
def eCmd6 : Election :=
  match startNominations eCmd5 1 with | .ok x => x | .error _ => eCmd5

/-- A closed command-based election for the reopen scenario: nominations
ran in year 3 and were closed. -/
def eCl0 : Election :=
  { variant := .fptp
    role := "elder"
    seatNumber := 1
    nominationControl := "command_based"
    nominationStarterRole := some "chieftain"
    nominationCloserRole := some "chieftain"
    isNominationOpen := true
    nominationStartYear := some 3
    nominations := ["Bob"] }

/-- The same election right after close_nominations succeeded. -/
def eCl1 : Election :=
  match closeNominations eCl0 with | .ok x => x | .error _ => eCl0

/-- The same election after a further start_nominations call in year 7. -/
def eCl2 : Election :=
  match startNominations eCl1 7 with | .ok x => x | .error _ => eCl1

/-- A randomness source that always selects the last entry - the
selection that would pick the last of two tied runners-up. -/
def pickLast : List String → Nat := fun l => l.length - 1

/-- A first-round two-round-runoff election with four ballots:
Ann 2, Ben 1, Cal 1 - no strict majority, Ben and Cal tied for second. -/
def eTrr : Election :=
  { variant := .runoff
    role := "elder"
    seatNumber := 1
    votingActive := true
    candidates := ["Ann", "Ben", "Cal"]
    players := ["p1", "p2", "p3", "p4"]
    votes := [("p1", "Ann"), ("p2", "Ann"), ("p3", "Ben"), ("p4", "Cal")]
    votingStartYear := some 0 }

/-- The election trrGetResult leaves behind on that first round. -/
def eTrr2 : Election := (trrGetResult eTrr pickLast).2

/-- A live ranked-choice election used to exercise ballot validation. -/
def eRk : Election :=
  { variant := .ranked
    role := "elder"
    seatNumber := 1
    votingActive := true
    candidates := ["Ann", "Ben", "Cal"]
    players := ["Dan", "Eve"]
    votingStartYear := some 0 }

/-- A live first-past-the-post election with tally Ann 2, Ben 2, Cal 1. -/
def eFp : Election :=
  { variant := .fptp
    role := "elder"
    seatNumber := 1
    votingActive := true
    candidates := ["Ann", "Ben", "Cal"]
    players := ["p1", "p2", "p3", "p4", "p5"]
    votes := [("p1", "Ann"), ("p2", "Ann"), ("p3", "Ben"), ("p4", "Ben"), ("p5", "Cal")]
    votingStartYear := some 0 }

/-- A closed time-based election, for exercising the reopen theorem. -/
def eTb : Election :=
  { variant := .fptp
    role := "elder"
    seatNumber := 1
    nominationControl := "time_based"
    isNominationOpen := false }

/-- A freshly created time-based election of the two-seat office. -/
def eNew0 : Election := newElection "chieftain" reqTwoSeat 1 0 0

/-!  Theorems.  Each claim of the specification review has exactly one
main theorem below, preceded by helper lemmas where needed. -/

theorem pickFrom_mem {l : List String} (h : l ≠ []) (pick : List String → Nat) :
    pickFrom pick l ∈ l := by
  have hlen : 0 < l.length := List.length_pos.mpr h
  have hmod : pick l % l.length < l.length := Nat.mod_lt _ hlen
  rw [pickFrom, List.getD_eq_getElem?_getD, List.getElem?_eq_getElem hmod]
  exact List.getElem_mem hmod

theorem pickFrom_of_lt {l : List String} {i : Nat} (h : i < l.length) :
    pickFrom (fun _ => i) l = l[i] := by
  rw [pickFrom, Nat.mod_eq_of_lt h, List.getD_eq_getElem?_getD,
    List.getElem?_eq_getElem h]
  rfl

theorem pickFrom_surj {l : List String} {c : String} (h : c ∈ l) :
    ∃ pk, pickFrom pk l = c := by
  obtain ⟨i, hi, rfl⟩ := List.mem_iff_getElem.mp h
  exact ⟨fun _ => i, pickFrom_of_lt hi⟩

theorem foldl_max_mem (l : List Nat) (a : Nat) : l.foldl max a ∈ a :: l := by
  induction l generalizing a with
  | nil => simp
  | cons b t ih =>
    rw [List.foldl_cons]
    rcases List.mem_cons.mp (ih (max a b)) with hh | hh
    · rw [hh]
      rcases max_choice a b with hm | hm <;> rw [hm] <;> simp
    · simp [hh]

theorem foldl_max_le (l : List Nat) (a : Nat) :
    ∀ x ∈ a :: l, x ≤ l.foldl max a := by
  induction l generalizing a with
  | nil => intro x hx; simp at hx; simp [hx]
  | cons b t ih =>
    intro x hx
    rw [List.foldl_cons]
    rcases List.mem_cons.mp hx with rfl | hx2
    · exact le_trans (le_max_left x b) (ih _ _ (List.mem_cons_self _ _))
    · rcases List.mem_cons.mp hx2 with rfl | hx3
      · exact le_trans (le_max_right a x) (ih _ _ (List.mem_cons_self _ _))
      · exact ih _ _ (List.mem_cons_of_mem _ hx3)

theorem maxList_mem {l : List Nat} (h : l ≠ []) : maxList l ∈ l := by
  cases l with
  | nil => exact absurd rfl h
  | cons a t => exact foldl_max_mem t a

theorem le_maxList {l : List Nat} {x : Nat} (h : x ∈ l) : x ≤ maxList l := by
  cases l with
  | nil => simp at h
  | cons a t => exact foldl_max_le t a x h

theorem foldl_min_mem (l : List Nat) (a : Nat) : l.foldl min a ∈ a :: l := by
  induction l generalizing a with
  | nil => simp
  | cons b t ih =>
    rw [List.foldl_cons]
    rcases List.mem_cons.mp (ih (min a b)) with hh | hh
    · rw [hh]
      rcases min_choice a b with hm | hm <;> rw [hm] <;> simp
    · simp [hh]

theorem foldl_min_le (l : List Nat) (a : Nat) :
    ∀ x ∈ a :: l, l.foldl min a ≤ x := by
  induction l generalizing a with
  | nil => intro x hx; simp at hx; simp [hx]
  | cons b t ih =>
    intro x hx
    rw [List.foldl_cons]
    rcases List.mem_cons.mp hx with rfl | hx2
    · exact le_trans (ih _ _ (List.mem_cons_self _ _)) (min_le_left x b)
    · rcases List.mem_cons.mp hx2 with rfl | hx3
      · exact le_trans (ih _ _ (List.mem_cons_self _ _)) (min_le_right a x)
      · exact ih _ _ (List.mem_cons_of_mem _ hx3)

theorem minList_mem {l : List Nat} (h : l ≠ []) : minList l ∈ l := by
  cases l with
  | nil => exact absurd rfl h
  | cons a t => exact foldl_min_mem t a

theorem minList_le {l : List Nat} {x : Nat} (h : x ∈ l) : minList l ≤ x := by
  cases l with
  | nil => simp at h
  | cons a t => exact foldl_min_le t a x h

theorem closeNominations_ok {e e2 : Election} (h : closeNominations e = .ok e2) :
    e.isNominationOpen = true ∧ e2.isNominationOpen = false ∧
    e2.nominationControl = e.nominationControl ∧
    e2.votingActive = e.votingActive ∧ e2.candidates = e.candidates ∧
    e2.nominations = e.nominations := by
  by_cases ho : e.isNominationOpen
  · simp [closeNominations, ho] at h
    subst h
    exact ⟨ho, rfl, rfl, rfl, rfl, rfl⟩
  · simp [closeNominations, ho] at h

theorem startNominations_ok {e e2 : Election} {y : Int}
    (h : startNominations e y = .ok e2) :
    e.isNominationOpen = false ∧ e2.isNominationOpen = true ∧
    e2.nominationControl = e.nominationControl ∧
    e2.votingActive = e.votingActive ∧ e2.candidates = e.candidates := by
  by_cases ho : e.isNominationOpen
  · simp [startNominations, ho] at h
  · rw [startNominations] at h
    simp only [ho] at h
    rw [if_neg (by simp)] at h
    split at h
    · exact absurd h (by simp)
    · simp only [Except.ok.injEq] at h
      subst h
      exact ⟨by simp [ho], rfl, rfl, rfl, rfl⟩

theorem nominate_ok {g : Gov} {e e2 : Election} {p c : String}
    (h : nominate g e p c = .ok e2) :
    e.isNominationOpen = true ∧ e.votingActive = false ∧
    e2.isNominationOpen = true ∧ e2.nominationControl = e.nominationControl ∧
    e2.votingActive = false ∧ e2.candidates = e.candidates ∧
    e2.nominations = e.nominations ++ [c] := by
  rw [nominate] at h
  by_cases ho : e.isNominationOpen
  · rw [if_neg (by simp [ho])] at h
    by_cases hv : e.votingActive
    · rw [if_pos hv] at h
      exact absurd h (by simp)
    · rw [if_neg hv] at h
      iterate 5 (split at h; · exact absurd h (by simp))
      simp only [Except.ok.injEq] at h
      subst h
      exact ⟨ho, by simp [hv], ho, rfl, by simp [hv], rfl, rfl⟩
  · simp [ho] at h

theorem fptpVote_ok {e e2 : Election} {p c : String}
    (h : fptpVote e p c = .ok e2) :
    e.votingActive = true ∧ e2.votingActive = true ∧
    e2.isNominationOpen = e.isNominationOpen ∧
    e2.nominationControl = e.nominationControl ∧
    e2.candidates = e.candidates ∧ e2.votes = e.votes ++ [(p, c)] := by
  rw [fptpVote] at h
  by_cases hv : e.votingActive
  · rw [if_neg (by simp [hv])] at h
    iterate 2 (split at h; · exact absurd h (by simp))
    simp only [Except.ok.injEq] at h
    subst h
    exact ⟨hv, hv, rfl, rfl, rfl, rfl⟩
  · simp [hv] at h

theorem rankedVote_ok {e e2 : Election} {p : String} {prefs : List String}
    (h : rankedVote e p prefs = .ok e2) :
    e.votingActive = true ∧ prefs.length = e.candidates.length ∧
    strSort prefs = strSort e.candidates ∧ e2.votingActive = true ∧
    e2.isNominationOpen = e.isNominationOpen ∧
    e2.nominationControl = e.nominationControl ∧
    e2.candidates = e.candidates ∧
    e2.rankedVotes = e.rankedVotes ++ [(p, prefs)] := by
  rw [rankedVote] at h
  by_cases hv : e.votingActive
  · rw [if_neg (by simp [hv])] at h
    by_cases hlen : prefs.length = e.candidates.length
    · rw [if_neg (by simp [hlen])] at h
      by_cases hsort : strSort prefs = strSort e.candidates
      · rw [if_neg (by simp [hsort])] at h
        split at h
        · exact absurd h (by simp)
        · simp only [Except.ok.injEq] at h
          subst h
          exact ⟨hv, hlen, hsort, hv, rfl, rfl, rfl, rfl⟩
      · rw [if_pos (by simp [hsort])] at h
        exact absurd h (by simp)
    · rw [if_pos (by simp [hlen])] at h
      exact absurd h (by simp)
  · simp [hv] at h

theorem runoffVote_ok {e e2 : Election} {p c : String}
    (h : runoffVote e p c = .ok e2) :
    e.votingActive = true ∧ e2.votingActive = true ∧
    e2.isNominationOpen = e.isNominationOpen ∧
    e2.nominationControl = e.nominationControl ∧
    e2.candidates = e.candidates ∧ e2.votes = e.votes ++ [(p, c)] := by
  rw [runoffVote] at h
  by_cases hv : e.votingActive
  · rw [if_neg (by simp [hv])] at h
    iterate 2 (split at h; · exact absurd h (by simp))
    simp only [Except.ok.injEq] at h
    subst h
    exact ⟨hv, hv, rfl, rfl, rfl, rfl⟩
  · simp [hv] at h

theorem fptpVote_inactive {e : Election} (h : e.votingActive = false)
    (p c : String) : fptpVote e p c = .error "Voting is not active" := by
  simp [fptpVote, h]

theorem rankedVote_inactive {e : Election} (h : e.votingActive = false)
    (p : String) (prefs : List String) :
    rankedVote e p prefs = .error "Voting is not active" := by
  simp [rankedVote, h]

theorem runoffVote_inactive {e : Election} (h : e.votingActive = false)
    (p c : String) : runoffVote e p c = .error "Voting is not active" := by
  simp [runoffVote, h]

theorem newElection_votingActive (r : String) (q : RoleReq) (s : Nat) (y : Int)
    (i : Nat) : (newElection r q s y i).votingActive = false := by
  rw [newElection]
  split <;> rfl

theorem newElection_control (r : String) (q : RoleReq) (s : Nat) (y : Int)
    (i : Nat) : (newElection r q s y i).nominationControl = q.nominationControl := by
  rw [newElection]
  split <;> rfl

/-- Preservation of the closed-and-timed property along one program step:
no call site reopens a time-based election whose nominations are closed. -/
theorem estep_timed_closed {a b : Election} (h : EStep a b)
    (hc : a.nominationControl = "time_based") (ho : a.isNominationOpen = false) :
    b.nominationControl = "time_based" ∧ b.isNominationOpen = false := by
  cases h with
  | closeTime e e2 y hper hcl =>
    obtain ⟨_, hop2, hct2, _, _, _⟩ := closeNominations_ok hcl
    exact ⟨hct2.trans hc, hop2⟩
  | closeCmd g e e2 p hctrl hcan hop hcl =>
    obtain ⟨_, hop2, hct2, _, _, _⟩ := closeNominations_ok hcl
    exact ⟨hct2.trans hc, hop2⟩
  | startCmd g e e2 p y hctrl hcan hop hst =>
    rw [hc] at hctrl
    exact absurd hctrl (by decide)
  | nomStep g e e2 p c hn =>
    obtain ⟨hop, _⟩ := nominate_ok hn
    rw [ho] at hop
    exact absurd hop (by decide)
  | startV e players y hop hva hlen => exact ⟨hc, ho⟩
  | castF e e2 p c hvar hvote =>
    obtain ⟨_, _, hop2, hct2, _⟩ := fptpVote_ok hvote
    exact ⟨hct2.trans hc, hop2.trans ho⟩
  | castR e e2 p prefs hvar hvote =>
    obtain ⟨_, _, _, _, hop2, hct2, _⟩ := rankedVote_ok hvote
    exact ⟨hct2.trans hc, hop2.trans ho⟩
  | castT e e2 p c hvar hvote =>
    obtain ⟨_, _, hop2, hct2, _⟩ := runoffVote_ok hvote
    exact ⟨hct2.trans hc, hop2.trans ho⟩

/-- C9 amended.  For time-based elections the claim stands: once
nominations are closed, no sequence of program call-site steps returns
the election to the open state - start_nominations is reachable again
only through the leadership command, whose filter requires command-based
control.  (The counterexample shows the claim fails for command-based
elections.) -/
theorem timed_nominations_never_reopen (e e2 : Election)
    (hr : Relation.ReflTransGen EStep e e2)
    (hc : e.nominationControl = "time_based")
    (ho : e.isNominationOpen = false) :
    e2.isNominationOpen = false := by
  have : e2.nominationControl = "time_based" ∧ e2.isNominationOpen = false := by
    induction hr with
    | refl => exact ⟨hc, ho⟩
    | tail hab hbc ih => exact estep_timed_closed hbc ih.1 ih.2
  exact this.2

/-- Witness for the C9 amended theorem at a concrete closed election. -/
theorem timed_nominations_never_reopen_witness :
    eTb.nominationControl = "time_based" ∧ eTb.isNominationOpen = false :=
  ⟨rfl, timed_nominations_never_reopen eTb eTb .refl rfl rfl⟩

/-- C7.  The ranked variant rejects any ballot that is not an exact
permutation of the current candidate list, and a rejected ballot leaves
the election - its voter-to-ballot mapping included - unchanged: either
the length check or the sorted-lists check fails, and sorted-equal
same-length lists are permutations. -/
theorem ranked_ballot_rejected_if_not_permutation (e : Election) (p : String)
    (prefs : List String) (h : ¬ prefs.Perm e.candidates) :
    (∃ msg, rankedVote e p prefs = .error msg) ∧ runRankedVote e p prefs = e := by
  cases hr : rankedVote e p prefs with
  | error msg =>
    refine ⟨⟨msg, rfl⟩, ?_⟩
    rw [runRankedVote, hr]
  | ok e2 =>
    exfalso
    obtain ⟨_, hlen, hsort, _⟩ := rankedVote_ok hr
    have hp1 : prefs.Perm (strSort prefs) :=
      (List.perm_insertionSort _ prefs).symm
    have hp2 : (strSort e.candidates).Perm e.candidates :=
      List.perm_insertionSort _ _
    rw [hsort] at hp1
    exact h (hp1.trans hp2)

/-- Witness for C7: a ballot repeating Ben and omitting Cal is rejected
and leaves the election untouched. -/
theorem ranked_ballot_rejected_witness :
    ¬ (List.Perm ["Ben", "Ben", "Ann"] eRk.candidates) ∧
    ((∃ msg, rankedVote eRk "Dan" ["Ben", "Ben", "Ann"] = .error msg) ∧
      runRankedVote eRk "Dan" ["Ben", "Ben", "Ann"] = eRk) :=
  ⟨by decide,
    ranked_ballot_rejected_if_not_permutation eRk "Dan" ["Ben", "Ben", "Ann"] (by decide)⟩

/-- C8.  With a non-empty candidate list, the plurality result is always
a candidate of maximal ballot count - every tied leader is a possible
outcome of the randomness source and no strict loser ever is - and with
zero ballots it is a candidate drawn from the full candidate list, each
candidate being a possible outcome, instead of a failure. -/
theorem fptp_result_maximal (e : Election) (hc : e.candidates ≠ []) :
    (e.votes = [] →
      (∀ pk, fptpGetResult e pk ∈ e.candidates) ∧
      (∀ c ∈ e.candidates, ∃ pk, fptpGetResult e pk = c)) ∧
    (e.votes ≠ [] →
      (∀ pk, fptpGetResult e pk ∈ e.candidates ∧
        ∀ c ∈ e.candidates, wins e.votes c ≤ wins e.votes (fptpGetResult e pk)) ∧
      (∀ c ∈ e.candidates, (∀ d ∈ e.candidates, wins e.votes d ≤ wins e.votes c) →
        ∃ pk, fptpGetResult e pk = c)) := by
  constructor
  · intro hv
    have hres : ∀ pk, fptpGetResult e pk = pickFrom pk e.candidates := by
      intro pk
      rw [fptpGetResult, if_pos (by simp [hv])]
    constructor
    · intro pk
      rw [hres]
      exact pickFrom_mem hc pk
    · intro c hcm
      obtain ⟨pk, hpk⟩ := pickFrom_surj hcm
      exact ⟨pk, (hres pk).trans hpk⟩
  · intro hv
    have hne : e.votes.isEmpty = false := by
      cases hvv : e.votes with
      | nil => exact absurd hvv hv
      | cons a t => rfl
    have hres : ∀ pk, fptpGetResult e pk =
        pickFrom pk (((e.candidates.map (fun c => (c, wins e.votes c))).filter
          (fun pr => pr.2 == maxList ((e.candidates.map
            (fun c => (c, wins e.votes c))).map (fun pr => pr.2)))).map
              (fun pr => pr.1)) := by
      intro pk
      rw [fptpGetResult, if_neg (by simp [hne])]
    have hcounts : e.candidates.map (fun c => (c, wins e.votes c)) ≠ [] := by
      simp [hc]
    have hvals :
        (e.candidates.map (fun c => (c, wins e.votes c))).map (fun pr => pr.2) ≠ [] := by
      simp [hc]
    obtain ⟨prm, hprm_mem, hprm_eq⟩ :=
      List.mem_map.mp (maxList_mem hvals)
    obtain ⟨cm, hcm_mem, hcm_eq⟩ := List.mem_map.mp hprm_mem
    have hwinners_ne :
        ((e.candidates.map (fun c => (c, wins e.votes c))).filter
          (fun pr => pr.2 == maxList ((e.candidates.map
            (fun c => (c, wins e.votes c))).map (fun pr => pr.2)))).map
              (fun pr => pr.1) ≠ [] := by
      have : prm ∈ (e.candidates.map (fun c => (c, wins e.votes c))).filter
          (fun pr => pr.2 == maxList ((e.candidates.map
            (fun c => (c, wins e.votes c))).map (fun pr => pr.2))) := by
        rw [List.mem_filter]
        exact ⟨hprm_mem, by simp [hprm_eq]⟩
      intro hnil
      rw [List.map_eq_nil_iff] at hnil
      rw [hnil] at this
      exact List.not_mem_nil _ this
    have hmax_le : ∀ c ∈ e.candidates,
        wins e.votes c ≤ maxList ((e.candidates.map
          (fun c => (c, wins e.votes c))).map (fun pr => pr.2)) := by
      intro c hcm2
      apply le_maxList
      exact List.mem_map.mpr ⟨(c, wins e.votes c),
        List.mem_map.mpr ⟨c, hcm2, rfl⟩, rfl⟩
    have hwinner_spec : ∀ x, x ∈ ((e.candidates.map (fun c => (c, wins e.votes c))).filter
          (fun pr => pr.2 == maxList ((e.candidates.map
            (fun c => (c, wins e.votes c))).map (fun pr => pr.2)))).map
              (fun pr => pr.1) →
        x ∈ e.candidates ∧ wins e.votes x = maxList ((e.candidates.map
          (fun c => (c, wins e.votes c))).map (fun pr => pr.2)) := by
      intro x hx
      obtain ⟨pr, hpr_f, hpr_eq⟩ := List.mem_map.mp hx
      rw [List.mem_filter] at hpr_f
      obtain ⟨px, hpx_mem, hpx_eq⟩ := List.mem_map.mp hpr_f.1
      have hbeq : pr.2 = maxList ((e.candidates.map
          (fun c => (c, wins e.votes c))).map (fun pr => pr.2)) := by
        have := hpr_f.2
        simpa using this
      subst hpr_eq
      rw [← hpx_eq]
      rw [← hpx_eq] at hbeq
      exact ⟨hpx_mem, hbeq⟩
    constructor
    · intro pk
      rw [hres]
      have hmem := pickFrom_mem hwinners_ne pk
      obtain ⟨hin, heq⟩ := hwinner_spec _ hmem
      refine ⟨hin, fun c hcm2 => ?_⟩
      rw [heq]
      exact hmax_le c hcm2
    · intro c hcm2 hdom
      have hceq : wins e.votes c = maxList ((e.candidates.map
          (fun c => (c, wins e.votes c))).map (fun pr => pr.2)) := by
        refine le_antisymm (hmax_le c hcm2) ?_
        rw [← hprm_eq, ← hcm_eq]
        exact hdom cm hcm_mem
      have hcwin : c ∈ ((e.candidates.map (fun c => (c, wins e.votes c))).filter
          (fun pr => pr.2 == maxList ((e.candidates.map
            (fun c => (c, wins e.votes c))).map (fun pr => pr.2)))).map
              (fun pr => pr.1) := by
        refine List.mem_map.mpr ⟨(c, wins e.votes c), ?_, rfl⟩
        rw [List.mem_filter]
        exact ⟨List.mem_map.mpr ⟨c, hcm2, rfl⟩, by simp [hceq]⟩
      obtain ⟨pk, hpk⟩ := pickFrom_surj hcwin
      exact ⟨pk, (hres pk).trans hpk⟩

/-- Witness for C8 at a tied tally Ann 2, Ben 2, Cal 1. -/
theorem fptp_result_maximal_witness :
    eFp.candidates ≠ [] ∧
    ((eFp.votes = [] →
      (∀ pk, fptpGetResult eFp pk ∈ eFp.candidates) ∧
      (∀ c ∈ eFp.candidates, ∃ pk, fptpGetResult eFp pk = c)) ∧
    (eFp.votes ≠ [] →
      (∀ pk, fptpGetResult eFp pk ∈ eFp.candidates ∧
        ∀ c ∈ eFp.candidates, wins eFp.votes c ≤ wins eFp.votes (fptpGetResult eFp pk)) ∧
      (∀ c ∈ eFp.candidates, (∀ d ∈ eFp.candidates, wins eFp.votes d ≤ wins eFp.votes c) →
        ∃ pk, fptpGetResult eFp pk = c))) :=
  ⟨by decide, fptp_result_maximal eFp (by decide)⟩

/-- C10.  A ranked-choice election with candidates but no ballots does
not fail: the first tabulation round counts nothing, and get_result
returns a candidate drawn from the full candidate list by the randomness
source, every candidate being a possible outcome. -/
theorem rcv_no_ballots_falls_back (e : Election) (hc : e.candidates ≠ [])
    (hv : e.rankedVotes = []) :
    (∀ pk, rcvGetResult e pk = some (pickFrom pk e.candidates) ∧
      pickFrom pk e.candidates ∈ e.candidates) ∧
    (∀ c ∈ e.candidates, ∃ pk, rcvGetResult e pk = some c) := by
  have hstep : ∀ pk, rcvGetResult e pk = some (pickFrom pk e.candidates) := by
    intro pk
    rw [rcvGetResult, hv]
    simp [rcvLoop, rcvRound, topChoices]
  constructor
  · exact fun pk => ⟨hstep pk, pickFrom_mem hc pk⟩
  · intro c hcm
    obtain ⟨pk, hpk⟩ := pickFrom_surj hcm
    exact ⟨pk, by rw [hstep pk, hpk]⟩

/-- Witness for C10 at a live three-candidate ranked election. -/
theorem rcv_no_ballots_falls_back_witness :
    eRk.candidates ≠ [] ∧ eRk.rankedVotes = [] ∧
    ((∀ pk, rcvGetResult eRk pk = some (pickFrom pk eRk.candidates) ∧
      pickFrom pk eRk.candidates ∈ eRk.candidates) ∧
    (∀ c ∈ eRk.candidates, ∃ pk, rcvGetResult eRk pk = some c)) :=
  ⟨by decide, rfl, rcv_no_ballots_falls_back eRk (by decide) rfl⟩

theorem qLookup_qSet (q : List (String × List Nat)) (role : String) (l : List Nat) :
    qLookup (qSet q role l) role = l := by
  induction q with
  | nil => simp [qSet, qLookup]
  | cons p t ih =>
    by_cases hp : p.1 = role
    · simp [qSet, hp, qLookup]
    · rw [qSet, if_neg (by simp [hp])]
      rw [qLookup, List.find?_cons_of_neg _ (by simp [hp])]
      exact ih

theorem qLookup_qSet_ne (q : List (String × List Nat)) (role r2 : String)
    (l : List Nat) (h : r2 ≠ role) : qLookup (qSet q role l) r2 = qLookup q r2 := by
  induction q with
  | nil =>
    rw [qSet, qLookup, List.find?_cons_of_neg _ (by simp [Ne.symm h])]
    rfl
  | cons p t ih =>
    by_cases hp : p.1 = role
    · rw [qSet, if_pos (by simp [hp])]
      rw [qLookup, List.find?_cons_of_neg _ (by simp [Ne.symm h]), qLookup,
        List.find?_cons_of_neg _ (by simp [hp ▸ Ne.symm h])]
    · rw [qSet, if_neg (by simp [hp])]
      by_cases hp2 : p.1 = r2
      · rw [qLookup, List.find?_cons_of_pos _ (by simp [hp2]), qLookup,
          List.find?_cons_of_pos _ (by simp [hp2])]
      · rw [qLookup, List.find?_cons_of_neg _ (by simp [hp2]), qLookup,
          List.find?_cons_of_neg _ (by simp [hp2])]
        exact ih

/-- The seats queued by requeueFront. -/
theorem requeueFront_qLookup (s : MState) (role : String) (seat : Nat) :
    qLookup (requeueFront s role seat).queuedSeats role =
      seat :: qLookup s.queuedSeats role :=
  qLookup_qSet _ _ _

/-- Counting and open-nomination predicates over a role only inspect the
elections of that role, so appending elections of other roles preserves
them. -/
theorem countActive_append_other (s : MState) (tail : List Election)
    (role : String) (htail : ∀ e ∈ tail, e.role ≠ role) :
    ((s.activeVotes ++ tail).filter (fun v => v.role == role)).length =
      countActiveForRole s role := by
  rw [List.filter_append, List.length_append, countActiveForRole]
  have : tail.filter (fun v => v.role == role) = [] := by
    rw [List.filter_eq_nil_iff]
    intro e he
    simp [htail e he]
  rw [this]
  simp

theorem anyOpen_append_other (s : MState) (tail : List Election)
    (role : String) (htail : ∀ e ∈ tail, e.role ≠ role) :
    ((s.activeVotes ++ tail).any (fun v => v.role == role && v.isNominationOpen)) =
      anyOpenNomForRole s role := by
  rw [List.any_append, anyOpenNomForRole]
  have : tail.any (fun v => v.role == role && v.isNominationOpen) = false := by
    rw [List.any_eq_false]
    intro e he
    simp [htail e he]
  rw [this]
  simp

theorem newElection_role (r : String) (q : RoleReq) (st : Nat) (y : Int) (i : Nat) :
    (newElection r q st y i).role = r := by
  rw [newElection]; split <;> rfl

theorem newElection_seat (r : String) (q : RoleReq) (st : Nat) (y : Int) (i : Nat) :
    (newElection r q st y i).seatNumber = st := by
  rw [newElection]; split <;> rfl

theorem newElection_eid (r : String) (q : RoleReq) (st : Nat) (y : Int) (i : Nat) :
    (newElection r q st y i).eid = i := by
  rw [newElection]; split <;> rfl

/-- Frame facts of one initiate_votes row over a different role: the
ledger, clock, configuration and the other role queue are untouched,
identities only grow, and every appended election belongs to the row
processed. -/
theorem processRole_frame (s : MState) (entry : String × RoleReq) (role : String)
    (hne : entry.1 ≠ role) :
    (processRole s entry).gov = s.gov ∧
    (processRole s entry).discovered = s.discovered ∧
    (processRole s entry).currentYear = s.currentYear ∧
    (processRole s entry).titleRequirements = s.titleRequirements ∧
    qLookup (processRole s entry).queuedSeats role = qLookup s.queuedSeats role ∧
    s.nextId ≤ (processRole s entry).nextId ∧
    ∃ tail, (processRole s entry).activeVotes = s.activeVotes ++ tail ∧
      ∀ e ∈ tail, e.role = entry.1 ∧ e.eid < (processRole s entry).nextId := by
  rw [processRole]
  split
  · split
    · rw [popAndCreate]
      cases hq : qLookup (extendQueue s entry.1 entry.2).queuedSeats entry.1 with
      | nil =>
        refine ⟨rfl, rfl, rfl, rfl, ?_, le_refl _, [], by simp [extendQueue], by simp⟩
        rw [extendQueue]
        exact qLookup_qSet_ne _ _ _ _ (Ne.symm hne)
      | cons seat rest =>
        refine ⟨rfl, rfl, rfl, rfl, ?_, by simp [extendQueue], ?_⟩
        · show qLookup (qSet (extendQueue s entry.1 entry.2).queuedSeats entry.1 rest) role =
            qLookup s.queuedSeats role
          rw [qLookup_qSet_ne _ _ _ _ (Ne.symm hne), extendQueue]
          exact qLookup_qSet_ne _ _ _ _ (Ne.symm hne)
        · refine ⟨[newElection entry.1 entry.2 seat s.currentYear s.nextId], ?_, ?_⟩
          · simp [extendQueue]
          · intro e he
            simp only [List.mem_singleton] at he
            subst he
            refine ⟨newElection_role _ _ _ _ _, ?_⟩
            rw [newElection_eid]
            simp [extendQueue]
    · refine ⟨rfl, rfl, rfl, rfl, ?_, le_refl _, [], by simp [extendQueue], by simp⟩
      rw [extendQueue]
      exact qLookup_qSet_ne _ _ _ _ (Ne.symm hne)
  · exact ⟨rfl, rfl, rfl, rfl, rfl, le_refl _, [], by simp, by simp⟩

/-- Any state reached by further initiate_votes rows keeps the elections
it already had. -/
theorem processRole_active_mono (s : MState) (entry : String × RoleReq) :
    ∃ tail, (processRole s entry).activeVotes = s.activeVotes ++ tail := by
  rw [processRole]
  split
  · split
    · rw [popAndCreate]
      cases hq : qLookup (extendQueue s entry.1 entry.2).queuedSeats entry.1 with
      | nil => exact ⟨[], by simp [extendQueue]⟩
      | cons seat rest =>
        exact ⟨[newElection entry.1 entry.2 seat s.currentYear s.nextId],
          by simp [extendQueue]⟩
    · exact ⟨[], by simp [extendQueue]⟩
  · exact ⟨[], by simp⟩

theorem foldl_active_mono (l : List (String × RoleReq)) (s : MState)
    {e : Election} (he : e ∈ s.activeVotes) :
    e ∈ (l.foldl processRole s).activeVotes := by
  induction l generalizing s with
  | nil => exact he
  | cons p t ih =>
    rw [List.foldl_cons]
    obtain ⟨tail, htail⟩ := processRole_active_mono s p
    exact ih (processRole s p) (by rw [htail]; exact List.mem_append_left _ he)

/-- The creating row: when the gate holds for the role, no election of
the role has open nominations and the seat sits at the queue front, the
row pops it and creates its election with the next fresh identity. -/
theorem processRole_hit (s : MState) (role : String) (req : RoleReq)
    (seat : Nat) (rest : List Nat)
    (hsel : req.selectionMethod = "voting")
    (hvac : (holdersOf s.gov role).length + countActiveForRole s role < req.maxHolders)
    (hinn : req.innovations.all (fun i => s.discovered.contains i) = true)
    (hopen : anyOpenNomForRole s role = false)
    (hq : qLookup s.queuedSeats role = seat :: rest) :
    ∃ e2 ∈ (processRole s (role, req)).activeVotes,
      e2.role = role ∧ e2.seatNumber = seat ∧ e2.eid = s.nextId := by
  have hgate : roleGate s role req = true := by
    rw [roleGate]
    simp only [hsel, hinn, Bool.and_true, Bool.and_eq_true, beq_iff_eq,
      decide_eq_true_eq]
    exact ⟨by trivial, by omega⟩
  have hq1 : qLookup (extendQueue s role req).queuedSeats role =
      (seat :: rest) ++ seatRange ((holdersOf s.gov role).length +
        countActiveForRole s role + 1) req.maxHolders := by
    rw [extendQueue]
    show qLookup (qSet s.queuedSeats role _) role = _
    rw [qLookup_qSet, hq]
  have hopen1 : anyOpenNomForRole (extendQueue s role req) role = false := hopen
  rw [processRole]
  simp only
  rw [if_pos hgate, if_pos (by rw [hq1, hopen1]; simp)]
  rw [popAndCreate, hq1]
  simp only [List.cons_append]
  refine ⟨newElection role req seat s.currentYear s.nextId,
    List.mem_append_right _ (List.mem_singleton.mpr rfl),
    newElection_role _ _ _ _ _, newElection_seat _ _ _ _ _, newElection_eid _ _ _ _ _⟩

/-- The initiate_votes fold creates an election for the front-queued
seat of a role whose row gate passes while no election of the role has
open nominations: rows of other roles do not disturb the role's queue,
ledger entries, active-election count or open-nomination status, and the
created election carries a fresh identity. -/
theorem initiate_fold_creates (l : List (String × RoleReq)) :
    ∀ (s : MState) (role : String) (req : RoleReq) (seat : Nat) (rest : List Nat),
    (role, req) ∈ l →
    (l.map Prod.fst).Nodup →
    req.selectionMethod = "voting" →
    (holdersOf s.gov role).length + countActiveForRole s role < req.maxHolders →
    req.innovations.all (fun i => s.discovered.contains i) = true →
    anyOpenNomForRole s role = false →
    qLookup s.queuedSeats role = seat :: rest →
    ∃ e2 ∈ (l.foldl processRole s).activeVotes,
      e2.role = role ∧ e2.seatNumber = seat ∧ s.nextId ≤ e2.eid := by
  induction l with
  | nil => intro s role req seat rest hmem; simp at hmem
  | cons p t ih =>
    intro s role req seat rest hmem hnd hsel hvac hinn hopen hq
    rw [List.foldl_cons]
    rcases List.mem_cons.mp hmem with heq | hmem2
    · obtain ⟨e2, he2mem, he2r, he2s, he2id⟩ :=
        processRole_hit s role req seat rest hsel hvac hinn hopen hq
      refine ⟨e2, foldl_active_mono t _ (by rw [heq] at he2mem; exact he2mem),
        he2r, he2s, le_of_eq he2id.symm⟩
    · have hne : p.1 ≠ role := by
        intro hp
        have hrin : role ∈ t.map Prod.fst :=
          List.mem_map.mpr ⟨(role, req), hmem2, rfl⟩
        rw [List.map_cons, List.nodup_cons] at hnd
        exact hnd.1 (hp ▸ hrin)
      obtain ⟨hgov, hdisc, hyear, htitle, hqpr, hid, tail, htail, htailp⟩ :=
        processRole_frame s p role hne
      obtain ⟨e2, he2mem, he2r, he2s, he2id⟩ :=
        ih (processRole s p) role req seat rest hmem2
          (by rw [List.map_cons, List.nodup_cons] at hnd; exact hnd.2)
          hsel
          (by
            rw [hgov]
            have : countActiveForRole (processRole s p) role =
                countActiveForRole s role := by
              rw [countActiveForRole, htail]
              exact countActive_append_other s tail role
                (fun e he => (htailp e he).1 ▸ hne)
            rw [this]
            exact hvac)
          (by rw [hdisc]; exact hinn)
          (by
            rw [anyOpenNomForRole, htail]
            rw [anyOpen_append_other s tail role (fun e he => (htailp e he).1 ▸ hne)]
            exact hopen)
          (by rw [hqpr]; exact hq)
      exact ⟨e2, he2mem, he2r, he2s, le_trans hid he2id⟩

/-- C5 amended.  The failure paths insert the seat at the front of its
office queue; the immediately following re-scan recreates an Election
for that seat index - before any newer queued seat, since the front is
popped - provided no election of the office has nominations open, the
office retains positive vacancy and its required innovations are
discovered.  (The counterexample shows the open-nomination proviso is
needed: without it the re-scan pops nothing.) -/
theorem requeued_seat_recreated_when_unblocked (s : MState) (role : String)
    (req : RoleReq) (seat : Nat)
    (hmem : (role, req) ∈ s.titleRequirements)
    (hkeys : (s.titleRequirements.map Prod.fst).Nodup)
    (hsel : req.selectionMethod = "voting")
    (hvac : (holdersOf s.gov role).length + countActiveForRole s role < req.maxHolders)
    (hinn : req.innovations.all (fun i => s.discovered.contains i) = true)
    (hopen : anyOpenNomForRole s role = false)
    (hfresh : ∀ e ∈ s.activeVotes, e.eid < s.nextId) :
    (qLookup (requeueFront s role seat).queuedSeats role).head? = some seat ∧
    ∃ e2 ∈ (initiateVotes (requeueFront s role seat)).activeVotes,
      e2.role = role ∧ e2.seatNumber = seat ∧ ∀ e3 ∈ s.activeVotes, e3 ≠ e2 := by
  have hq : qLookup (requeueFront s role seat).queuedSeats role =
      seat :: qLookup s.queuedSeats role := requeueFront_qLookup s role seat
  refine ⟨by rw [hq]; rfl, ?_⟩
  obtain ⟨e2, he2mem, he2r, he2s, he2id⟩ :=
    initiate_fold_creates s.titleRequirements (requeueFront s role seat) role req
      seat (qLookup s.queuedSeats role) hmem hkeys hsel hvac hinn hopen hq
  rw [initiateVotes]
  refine ⟨e2, he2mem, he2r, he2s, fun e3 he3 hne => ?_⟩
  have hlt : e3.eid < s.nextId := hfresh e3 he3
  rw [hne] at hlt
  have hid0 : (requeueFront s role seat).nextId = s.nextId := rfl
  rw [hid0] at he2id
  exact absurd he2id (by omega)

/-- Witness for the C5 amended theorem: requeueing seat 1 of the idle
two-seat office and re-scanning recreates a seat-1 election. -/
theorem requeued_seat_recreated_witness :
    ((mgr0.titleRequirements.map Prod.fst).Nodup ∧
      ("chieftain", reqTwoSeat) ∈ mgr0.titleRequirements ∧
      reqTwoSeat.selectionMethod = "voting" ∧
      (holdersOf mgr0.gov "chieftain").length + countActiveForRole mgr0 "chieftain" <
        reqTwoSeat.maxHolders ∧
      anyOpenNomForRole mgr0 "chieftain" = false) ∧
    ((qLookup (requeueFront mgr0 "chieftain" 1).queuedSeats "chieftain").head? = some 1 ∧
      ∃ e2 ∈ (initiateVotes (requeueFront mgr0 "chieftain" 1)).activeVotes,
        e2.role = "chieftain" ∧ e2.seatNumber = 1 ∧
        ∀ e3 ∈ mgr0.activeVotes, e3 ≠ e2) :=
  ⟨⟨by decide, by decide, rfl, by decide, by decide⟩,
    requeued_seat_recreated_when_unblocked mgr0 "chieftain" reqTwoSeat 1
      (by decide) (by decide) rfl (by decide) rfl (by decide)
      (fun e3 he3 => absurd he3 (by simp [mgr0]))⟩

theorem keysInOrder_mem (l : List String) (a : String) :
    a ∈ keysInOrder l ↔ a ∈ l := by
  induction l using keysInOrder.induct with
  | case1 => simp [keysInOrder]
  | case2 c rest ih =>
    rw [keysInOrder]
    constructor
    · intro h
      rcases List.mem_cons.mp h with rfl | h2
      · exact List.mem_cons_self _ _
      · have := ih.mp h2
        rw [List.mem_filter] at this
        exact List.mem_cons_of_mem _ this.1
    · intro h
      rcases List.mem_cons.mp h with rfl | h2
      · exact List.mem_cons_self _ _
      · by_cases hac : a = c
        · exact hac ▸ List.mem_cons_self _ _
        · refine List.mem_cons_of_mem _ (ih.mpr ?_)
          rw [List.mem_filter]
          exact ⟨h2, by simp [hac]⟩

theorem keysInOrder_ne_nil {l : List String} (h : l ≠ []) :
    keysInOrder l ≠ [] := by
  cases l with
  | nil => exact absurd rfl h
  | cons c rest => rw [keysInOrder]; simp

theorem keysInOrder_replicate {n : Nat} (h : 0 < n) (c : String) :
    keysInOrder (List.replicate n c) = [c] := by
  cases n with
  | zero => omega
  | succ m =>
    rw [List.replicate_succ, keysInOrder]
    have : (List.replicate m c).filter (fun x => x != c) = [] := by
      rw [List.filter_eq_nil_iff]
      intro x hx
      rw [List.eq_of_mem_replicate hx]
      simp
    rw [this, keysInOrder]

theorem topChoices_mem {ballots : List (List String)} {elim : List String}
    {x : String} (h : x ∈ topChoices ballots elim) :
    (∃ b ∈ ballots, x ∈ b) ∧ x ∉ elim := by
  obtain ⟨b, hb, hfb⟩ := List.mem_filterMap.mp h
  have hx : x ∈ b := List.mem_of_find?_eq_some hfb
  have hpred := List.find?_some hfb
  rw [decide_eq_true_eq] at hpred
  exact ⟨⟨b, hb, hx⟩, hpred⟩

/-- A ballot that ranks every candidate always yields a top choice while
a non-eliminated candidate remains. -/
theorem firstPref_some {cands b : List String} {elim : List String} {c : String}
    (hb : b.Perm cands) (hc : c ∈ cands) (hne : c ∉ elim) :
    ∃ x, firstPref elim b = some x ∧ x ∈ cands ∧ x ∉ elim := by
  have hcb : c ∈ b := hb.mem_iff.mpr hc
  have hsome : (firstPref elim b).isSome := by
    rw [firstPref, List.find?_isSome]
    exact ⟨c, hcb, by simpa using hne⟩
  obtain ⟨x, hx⟩ := Option.isSome_iff_exists.mp hsome
  have hxb : x ∈ b := List.mem_of_find?_eq_some hx
  have hpred := List.find?_some hx
  rw [decide_eq_true_eq] at hpred
  exact ⟨x, hx, hb.mem_iff.mp hxb, hpred⟩

/-- When only a single candidate value remains uneliminated, every
ballot tops with it and the tabulation is a constant list. -/
theorem topChoices_replicate {cands : List String}
    {ballots : List (List String)} {elim : List String} {c : String}
    (hperm : ∀ b ∈ ballots, b.Perm cands) (hc : c ∈ cands) (hne : c ∉ elim)
    (huni : ∀ x ∈ cands, x ∉ elim → x = c) :
    topChoices ballots elim = List.replicate ballots.length c := by
  rw [topChoices]
  induction ballots with
  | nil => rfl
  | cons b t ih =>
    rw [List.filterMap_cons]
    obtain ⟨x, hx, hxc, hxe⟩ := firstPref_some (hperm b (List.mem_cons_self _ _)) hc hne
    have hxceq : x = c := huni x hxc hxe
    subst hxceq
    simp only [hx]
    rw [List.length_cons, List.replicate_succ]
    congr 1
    exact ih (fun b2 hb2 => hperm b2 (List.mem_cons_of_mem _ hb2))

/-- Every tally entry is a tabulated key paired with its count. -/
theorem tallyOf_mem {ballots : List (List String)} {elim : List String}
    {pr : String × Nat} (h : pr ∈ tallyOf ballots elim) :
    pr.1 ∈ keysInOrder (topChoices ballots elim) ∧
    pr.2 = (topChoices ballots elim).count pr.1 := by
  obtain ⟨c, hcm, hce⟩ := List.mem_map.mp h
  subst hce
  exact ⟨hcm, rfl⟩

/-- A declared round winner is a tabulated key holding the maximal count,
and that count is a strict majority of the counted ballots. -/
theorem rcvRound_winner_spec {ballots : List (List String)} {elim : List String}
    {w : String} (h : rcvRound ballots elim = .winner w) :
    w ∈ keysInOrder (topChoices ballots elim) ∧
    (topChoices ballots elim).count w =
      maxList ((tallyOf ballots elim).map (fun pr => pr.2)) ∧
    2 * maxList ((tallyOf ballots elim).map (fun pr => pr.2)) >
      ((tallyOf ballots elim).map (fun pr => pr.2)).foldl (· + ·) 0 := by
  rw [rcvRound] at h
  simp only at h
  split at h
  · exact absurd h (by simp)
  · split at h
    · next hne hmv =>
      have htne : topChoices ballots elim ≠ [] := by
        intro hx
        rw [hx] at hne
        exact hne rfl
      have hkeys : keysInOrder (topChoices ballots elim) ≠ [] :=
        keysInOrder_ne_nil htne
      have hcounts : tallyOf ballots elim ≠ [] := by
        rw [tallyOf]
        simp [hkeys]
      have hvals : (tallyOf ballots elim).map (fun pr => pr.2) ≠ [] := by
        simp [hcounts]
      obtain ⟨pr, hprm, hpr2⟩ := List.mem_map.mp (maxList_mem hvals)
      have hfind : ((tallyOf ballots elim).find?
          (fun pr => pr.2 == maxList ((tallyOf ballots elim).map
            (fun pr => pr.2)))).isSome := by
        rw [List.find?_isSome]
        exact ⟨pr, hprm, by simp [hpr2]⟩
      obtain ⟨pr0, hpr0⟩ := Option.isSome_iff_exists.mp hfind
      have hpr0m : pr0 ∈ tallyOf ballots elim := List.mem_of_find?_eq_some hpr0
      have hpr0e := List.find?_some hpr0
      rw [beq_iff_eq] at hpr0e
      have hw : w = pr0.1 := by
        have := h.symm
        simp only [RoundOutcome.winner.injEq] at this
        rw [this, argmaxKey, hpr0]
        rfl
      obtain ⟨hkm, hcnt⟩ := tallyOf_mem hpr0m
      subst hw
      exact ⟨hkm, by rw [← hcnt, hpr0e], hmv⟩
    · exact absurd h (by simp)

/-- A reported elimination group is the non-empty set of tabulated keys
holding the minimal count, and the round had counted ballots. -/
theorem rcvRound_eliminate_spec {ballots : List (List String)}
    {elim : List String} {grp : List String}
    (h : rcvRound ballots elim = .eliminate grp) :
    grp ≠ [] ∧
    (∀ c ∈ grp, c ∈ keysInOrder (topChoices ballots elim) ∧
      (topChoices ballots elim).count c =
        minList ((tallyOf ballots elim).map (fun pr => pr.2))) ∧
    (∀ d ∈ keysInOrder (topChoices ballots elim),
      minList ((tallyOf ballots elim).map (fun pr => pr.2)) ≤
        (topChoices ballots elim).count d) ∧
    topChoices ballots elim ≠ [] := by
  rw [rcvRound] at h
  simp only at h
  split at h
  · exact absurd h (by simp)
  · split at h
    · exact absurd h (by simp)
    · next hne hmv =>
      have htne : topChoices ballots elim ≠ [] := by
        intro hx
        rw [hx] at hne
        exact hne rfl
      have hkeys : keysInOrder (topChoices ballots elim) ≠ [] :=
        keysInOrder_ne_nil htne
      have hcounts : tallyOf ballots elim ≠ [] := by
        rw [tallyOf]
        simp [hkeys]
      have hvals : (tallyOf ballots elim).map (fun pr => pr.2) ≠ [] := by
        simp [hcounts]
      have hgrp : grp = ((tallyOf ballots elim).filter
          (fun pr => pr.2 == minList ((tallyOf ballots elim).map
            (fun pr => pr.2)))).map (fun pr => pr.1) := by
        have := h.symm
        simp only [RoundOutcome.eliminate.injEq] at this
        exact this
      refine ⟨?_, ?_, ?_, htne⟩
      · obtain ⟨pr, hprm, hpr2⟩ := List.mem_map.mp (minList_mem hvals)
        rw [hgrp]
        intro hnil
        rw [List.map_eq_nil_iff, List.filter_eq_nil_iff] at hnil
        exact hnil pr hprm (by simp [hpr2])
      · intro c hcg
        rw [hgrp] at hcg
        obtain ⟨pr, hprf, hpre⟩ := List.mem_map.mp hcg
        rw [List.mem_filter] at hprf
        obtain ⟨hkm, hcnt⟩ := tallyOf_mem hprf.1
        have hveq : pr.2 = minList ((tallyOf ballots elim).map (fun pr => pr.2)) := by
          have := hprf.2
          simpa using this
        subst hpre
        exact ⟨hkm, by rw [← hcnt, hveq]⟩
      · intro d hdm
        have hdc : (d, (topChoices ballots elim).count d) ∈ tallyOf ballots elim := by
          rw [tallyOf]
          exact List.mem_map.mpr ⟨d, hdm, rfl⟩
        apply minList_le
        exact List.mem_map.mpr ⟨_, hdc, rfl⟩

/-- When every remaining candidate value equals the single value c, the
round declares c the winner: all ballots top with c, giving it all the
counted votes, a strict majority. -/
theorem rcvRound_uniform {cands : List String} {ballots : List (List String)}
    {elim : List String} {c : String} (hb : ballots ≠ [])
    (hperm : ∀ b ∈ ballots, b.Perm cands) (hc : c ∈ cands) (hne : c ∉ elim)
    (huni : ∀ x ∈ cands, x ∉ elim → x = c) :
    rcvRound ballots elim = .winner c := by
  have hn : 0 < ballots.length := List.length_pos.mpr hb
  have ht : topChoices ballots elim = List.replicate ballots.length c :=
    topChoices_replicate hperm hc hne huni
  have hta : tallyOf ballots elim = [(c, ballots.length)] := by
    rw [tallyOf, ht, keysInOrder_replicate hn c]
    simp [List.count_replicate_self]
  rw [rcvRound]
  simp only [ht, hta]
  have hemp : (List.replicate ballots.length c).isEmpty = false := by
    cases hbl : ballots.length with
    | zero => omega
    | succ m => rw [List.replicate_succ]; rfl
  have hmax : maxList [ballots.length] = ballots.length := rfl
  rw [if_neg (by simp [hemp])]
  simp only [List.map_cons, List.map_nil]
  rw [if_pos (by rw [hmax]; simp [List.foldl]; omega)]
  simp [argmaxKey, hmax]

/-- Termination of the instant-runoff loop: with fuel at least one and
at least the number of not-yet-eliminated candidates, the loop returns a
winner from the candidate list.  Each non-returning round removes a
fresh candidate from the remainder, and a one-candidate remainder forces
a majority return, so the remainder bounds the rounds. -/
theorem rcvLoop_total (cands : List String) (ballots : List (List String))
    (pk : List String → Nat) (hb : ballots ≠ []) (hc : cands ≠ [])
    (hperm : ∀ b ∈ ballots, b.Perm cands) :
    ∀ (fuel : Nat) (elim : List String), 1 ≤ fuel →
    (cands.filter (fun c => decide (c ∉ elim))).length ≤ fuel →
    ∃ w, rcvLoop cands ballots pk elim fuel = some w ∧ w ∈ cands := by
  intro fuel
  induction fuel with
  | zero => intro elim h1 _; omega
  | succ n ih =>
    intro elim h1 hlen
    cases hr : rcvRound ballots elim with
    | empty =>
      exact ⟨pickFrom pk cands, by rw [rcvLoop, hr], pickFrom_mem hc pk⟩
    | winner w =>
      refine ⟨w, by rw [rcvLoop, hr], ?_⟩
      obtain ⟨hw, _, _⟩ := rcvRound_winner_spec hr
      obtain ⟨⟨b, hbm, hwb⟩, _⟩ := topChoices_mem ((keysInOrder_mem _ _).mp hw)
      exact (hperm b hbm).mem_iff.mp hwb
    | eliminate grp =>
      obtain ⟨hgne, hgmem, hgmin, htne⟩ := rcvRound_eliminate_spec hr
      have hcg : pickFrom pk grp ∈ grp := pickFrom_mem hgne pk
      have hct : pickFrom pk grp ∈ topChoices ballots elim :=
        (keysInOrder_mem _ _).mp (hgmem _ hcg).1
      obtain ⟨⟨b, hbm, hcb⟩, hce⟩ := topChoices_mem hct
      have hccands : pickFrom pk grp ∈ cands := (hperm b hbm).mem_iff.mp hcb
      have hcfil : pickFrom pk grp ∈ cands.filter (fun c => decide (c ∉ elim)) := by
        rw [List.mem_filter]
        exact ⟨hccands, by simpa using hce⟩
      have hfil : cands.filter (fun c => decide (c ∉ elim ++ [pickFrom pk grp])) =
          (cands.filter (fun c => decide (c ∉ elim))).filter
            (fun c => decide (c ≠ pickFrom pk grp)) := by
        rw [List.filter_filter]
        apply List.filter_congr
        intro x hx
        by_cases h1x : x ∈ elim <;> by_cases h2x : x = pickFrom pk grp <;>
          simp [h1x, h2x]
      have hlt : (cands.filter (fun c => decide (c ∉ elim ++ [pickFrom pk grp]))).length <
          (cands.filter (fun c => decide (c ∉ elim))).length := by
        rw [hfil]
        exact List.length_filter_lt_length_iff_exists.mpr
          ⟨pickFrom pk grp, hcfil, by simp⟩
      have hge2 : 2 ≤ (cands.filter (fun c => decide (c ∉ elim))).length := by
        by_contra hlt2
        push_neg at hlt2
        have hpos : 0 < (cands.filter (fun c => decide (c ∉ elim))).length :=
          List.length_pos.mpr (List.ne_nil_of_mem hcfil)
        have hone : (cands.filter (fun c => decide (c ∉ elim))).length = 1 := by omega
        obtain ⟨a, ha⟩ := List.length_eq_one.mp hone
        have haeq : a = pickFrom pk grp := by
          have := hcfil
          rw [ha] at this
          exact (List.mem_singleton.mp this).symm
        have huni : ∀ x ∈ cands, x ∉ elim → x = pickFrom pk grp := by
          intro x hxc hxe
          have : x ∈ cands.filter (fun c => decide (c ∉ elim)) := by
            rw [List.mem_filter]
            exact ⟨hxc, by simpa using hxe⟩
          rw [ha] at this
          exact (List.mem_singleton.mp this).trans haeq
        have := rcvRound_uniform hb hperm hccands hce huni
        rw [hr] at this
        exact absurd this (by simp)
      obtain ⟨w, hw, hwc⟩ := ih (elim ++ [pickFrom pk grp]) (by omega) (by omega)
      exact ⟨w, by rw [rcvLoop, hr]; exact hw, hwc⟩

/-- Conversely, a strict majority forces the round to declare a winner:
the maximal count is at least the majority count, so the winner branch
is taken. -/
theorem rcvRound_majority_winner {ballots : List (List String)}
    {elim : List String} {c : String}
    (hck : c ∈ keysInOrder (topChoices ballots elim))
    (hmaj : 2 * (topChoices ballots elim).count c >
      ((tallyOf ballots elim).map (fun pr => pr.2)).foldl (· + ·) 0) :
    ∃ w, rcvRound ballots elim = .winner w := by
  have htne : topChoices ballots elim ≠ [] :=
    List.ne_nil_of_mem ((keysInOrder_mem _ _).mp hck)
  have hcv : (topChoices ballots elim).count c ∈
      (tallyOf ballots elim).map (fun pr => pr.2) := by
    refine List.mem_map.mpr ⟨(c, (topChoices ballots elim).count c), ?_, rfl⟩
    rw [tallyOf]
    exact List.mem_map.mpr ⟨c, hck, rfl⟩
  have hle := le_maxList hcv
  rw [rcvRound]
  simp only
  rw [if_neg (by simp [List.isEmpty_iff, htne])]
  rw [if_pos (by omega)]
  exact ⟨_, rfl⟩

/-- C6.  For non-empty ballots that each rank the full candidate list,
the instant-runoff loop terminates within candidates - 1 elimination
rounds (fuel equal to the number of candidates suffices; each iteration
past the first consumes one elimination) and returns a candidate; a
winner is declared exactly on a strict majority of the counted ballots;
and each elimination removes one member - selected by the randomness
source - of the group with the fewest current votes. -/
theorem rcv_terminates_with_majority (cands : List String)
    (ballots : List (List String)) (pk : List String → Nat)
    (hb : ballots ≠ []) (hc : cands ≠ [])
    (hperm : ∀ b ∈ ballots, b.Perm cands) :
    (∃ w, rcvLoop cands ballots pk [] cands.length = some w ∧ w ∈ cands) ∧
    (∀ elim w, rcvRound ballots elim = .winner w →
      2 * (topChoices ballots elim).count w >
        ((tallyOf ballots elim).map (fun pr => pr.2)).foldl (· + ·) 0) ∧
    (∀ elim c, c ∈ keysInOrder (topChoices ballots elim) →
      2 * (topChoices ballots elim).count c >
        ((tallyOf ballots elim).map (fun pr => pr.2)).foldl (· + ·) 0 →
      ∃ w, rcvRound ballots elim = .winner w) ∧
    (∀ elim grp, rcvRound ballots elim = .eliminate grp →
      grp ≠ [] ∧ (∀ pq, pickFrom pq grp ∈ grp) ∧
      (∀ c ∈ grp, ∀ d ∈ keysInOrder (topChoices ballots elim),
        (topChoices ballots elim).count c ≤ (topChoices ballots elim).count d)) := by
  refine ⟨?_, ?_, fun elim c hck hmaj => rcvRound_majority_winner hck hmaj, ?_⟩
  · have hfl : cands.filter (fun c => decide (c ∉ ([] : List String))) = cands := by
      apply List.filter_eq_self.mpr
      intro a _
      simp
    exact rcvLoop_total cands ballots pk hb hc hperm cands.length []
      (by have := List.length_pos.mpr hc; omega) (by rw [hfl])
  · intro elim w hw
    obtain ⟨_, hcnt, hmv⟩ := rcvRound_winner_spec hw
    rw [hcnt]
    exact hmv
  · intro elim grp hg
    obtain ⟨hgne, hgmem, hgmin, _⟩ := rcvRound_eliminate_spec hg
    refine ⟨hgne, fun pq => pickFrom_mem hgne pq, fun c hcg d hdm => ?_⟩
    rw [(hgmem c hcg).2]
    exact hgmin d hdm

/-- Witness for C6 at the four-ballot three-candidate election of the
specification test sketch. -/
theorem rcv_terminates_with_majority_witness :
    ((["Ann", "Ben", "Cal"] : List String) ≠ [] ∧
      ([["Ann", "Ben", "Cal"], ["Ben", "Ann", "Cal"],
        ["Cal", "Ben", "Ann"], ["Ann", "Cal", "Ben"]] : List (List String)) ≠ [] ∧
      (∀ b ∈ [["Ann", "Ben", "Cal"], ["Ben", "Ann", "Cal"],
        ["Cal", "Ben", "Ann"], ["Ann", "Cal", "Ben"]],
          List.Perm b ["Ann", "Ben", "Cal"])) ∧
    ((∃ w, rcvLoop ["Ann", "Ben", "Cal"]
        [["Ann", "Ben", "Cal"], ["Ben", "Ann", "Cal"],
          ["Cal", "Ben", "Ann"], ["Ann", "Cal", "Ben"]] pick0 []
        (["Ann", "Ben", "Cal"] : List String).length = some w ∧
        w ∈ ["Ann", "Ben", "Cal"]) ∧
    (∀ elim w, rcvRound [["Ann", "Ben", "Cal"], ["Ben", "Ann", "Cal"],
        ["Cal", "Ben", "Ann"], ["Ann", "Cal", "Ben"]] elim = .winner w →
      2 * (topChoices [["Ann", "Ben", "Cal"], ["Ben", "Ann", "Cal"],
        ["Cal", "Ben", "Ann"], ["Ann", "Cal", "Ben"]] elim).count w >
        ((tallyOf [["Ann", "Ben", "Cal"], ["Ben", "Ann", "Cal"],
          ["Cal", "Ben", "Ann"], ["Ann", "Cal", "Ben"]] elim).map
            (fun pr => pr.2)).foldl (· + ·) 0) ∧
    (∀ elim c, c ∈ keysInOrder (topChoices [["Ann", "Ben", "Cal"],
        ["Ben", "Ann", "Cal"], ["Cal", "Ben", "Ann"], ["Ann", "Cal", "Ben"]] elim) →
      2 * (topChoices [["Ann", "Ben", "Cal"], ["Ben", "Ann", "Cal"],
        ["Cal", "Ben", "Ann"], ["Ann", "Cal", "Ben"]] elim).count c >
        ((tallyOf [["Ann", "Ben", "Cal"], ["Ben", "Ann", "Cal"],
          ["Cal", "Ben", "Ann"], ["Ann", "Cal", "Ben"]] elim).map
            (fun pr => pr.2)).foldl (· + ·) 0 →
      ∃ w, rcvRound [["Ann", "Ben", "Cal"], ["Ben", "Ann", "Cal"],
        ["Cal", "Ben", "Ann"], ["Ann", "Cal", "Ben"]] elim = .winner w) ∧
    (∀ elim grp, rcvRound [["Ann", "Ben", "Cal"], ["Ben", "Ann", "Cal"],
        ["Cal", "Ben", "Ann"], ["Ann", "Cal", "Ben"]] elim = .eliminate grp →
      grp ≠ [] ∧ (∀ pq, pickFrom pq grp ∈ grp) ∧
      (∀ c ∈ grp, ∀ d ∈ keysInOrder (topChoices [["Ann", "Ben", "Cal"],
          ["Ben", "Ann", "Cal"], ["Cal", "Ben", "Ann"], ["Ann", "Cal", "Ben"]] elim),
        (topChoices [["Ann", "Ben", "Cal"], ["Ben", "Ann", "Cal"],
          ["Cal", "Ben", "Ann"], ["Ann", "Cal", "Ben"]] elim).count c ≤
        (topChoices [["Ann", "Ben", "Cal"], ["Ben", "Ann", "Cal"],
          ["Cal", "Ben", "Ann"], ["Ann", "Cal", "Ben"]] elim).count d))) :=
  ⟨⟨by decide, by decide, by decide⟩,
    rcv_terminates_with_majority ["Ann", "Ben", "Cal"]
      [["Ann", "Ben", "Cal"], ["Ben", "Ann", "Cal"],
        ["Cal", "Ben", "Ann"], ["Ann", "Cal", "Ben"]] pick0
      (by decide) (by decide) (by decide)⟩

/-- Every tally entry is a pool candidate paired with its ballot count. -/
theorem trrCounts_mem {e : Election} {pr : String × Nat}
    (h : pr ∈ trrCounts e) :
    pr.1 ∈ listOrElse e.finalists e.candidates ∧ pr.2 = wins e.votes pr.1 := by
  obtain ⟨c, hcm, hce⟩ := List.mem_map.mp h
  subst hce
  exact ⟨hcm, rfl⟩

/-- C4 amended.  On a first round with ballots and no strict majority,
get_result returns RUNOFF, clears the ballots, ends round one, and sets
exactly two finalists: the first two keys of the stable descending sort
of the tally, whose counts dominate every other candidate.  No
randomness is consulted (the counterexample shows a random tie-break
would differ). -/
theorem runoff_no_majority_starts_runoff (e : Election) (pk : List String → Nat)
    (hf : e.finalists = []) (hv : e.votes ≠ []) (hc : 2 ≤ e.candidates.length)
    (hnm : 2 * trrMax e ≤ trrTotal e) :
    (trrGetResult e pk).1 = "RUNOFF" ∧
    (trrGetResult e pk).2.votes = [] ∧
    (trrGetResult e pk).2.firstRound = false ∧
    (trrGetResult e pk).2.finalists =
      ((trrSortedDesc e).map (fun pr => pr.1)).take 2 ∧
    (trrGetResult e pk).2.finalists.length = 2 ∧
    (∀ c ∈ e.candidates, c ∉ (trrGetResult e pk).2.finalists →
      ∀ f ∈ (trrGetResult e pk).2.finalists,
        wins e.votes c ≤ wins e.votes f) := by
  have hne : e.votes.isEmpty = false := by
    cases hvv : e.votes with
    | nil => exact absurd hvv hv
    | cons a t => rfl
  have hg : trrGetResult e pk = ("RUNOFF", { e with
      finalists := ((trrSortedDesc e).map (fun pr => pr.1)).take 2
      firstRound := false
      votes := [] }) := by
    rw [trrGetResult, if_neg (by simp [hne]), if_neg (by omega),
      if_pos (by simp [hf])]
  have hpool : listOrElse e.finalists e.candidates = e.candidates := by
    simp [listOrElse, hf]
  have hlen : (trrSortedDesc e).length = e.candidates.length := by
    rw [trrSortedDesc, List.length_insertionSort, trrCounts, hpool,
      List.length_map]
  have hsorted : List.Sorted descByCount (trrSortedDesc e) :=
    List.sorted_insertionSort descByCount (trrCounts e)
  have hperm : (trrSortedDesc e).Perm (trrCounts e) :=
    List.perm_insertionSort descByCount (trrCounts e)
  have hfin_eq : (trrGetResult e pk).2.finalists =
      ((trrSortedDesc e).map (fun pr => pr.1)).take 2 := by
    rw [hg]
  refine ⟨by rw [hg], by rw [hg], by rw [hg], hfin_eq, ?_, ?_⟩
  · rw [hfin_eq]
    simp only [List.length_take, List.length_map, hlen]
    omega
  · intro c hcm hcnot f hf2
    rw [hfin_eq] at hcnot hf2
    obtain ⟨p1, tl1, hsp⟩ : ∃ p1 tl1, trrSortedDesc e = p1 :: tl1 := by
      cases hx : trrSortedDesc e with
      | nil => rw [hx] at hlen; simp at hlen; omega
      | cons p1 tl1 => exact ⟨p1, tl1, rfl⟩
    obtain ⟨p2, rest, hsp2⟩ : ∃ p2 rest, tl1 = p2 :: rest := by
      cases hx : tl1 with
      | nil => rw [hx] at hsp; rw [hsp] at hlen; simp at hlen; omega
      | cons p2 rest => exact ⟨p2, rest, rfl⟩
    rw [hsp2] at hsp
    have hfin : ((trrSortedDesc e).map (fun pr => pr.1)).take 2 = [p1.1, p2.1] := by
      rw [hsp]; rfl
    rw [hfin] at hcnot hf2
    have hcc : (c, wins e.votes c) ∈ trrCounts e := by
      rw [trrCounts, hpool]
      exact List.mem_map.mpr ⟨c, hcm, rfl⟩
    have hcs : (c, wins e.votes c) ∈ trrSortedDesc e := hperm.mem_iff.mpr hcc
    rw [hsp] at hcs
    have hcrest : (c, wins e.votes c) ∈ rest := by
      rcases List.mem_cons.mp hcs with he1 | hcs2
      · exfalso
        apply hcnot
        have hc1 : c = p1.1 := congrArg Prod.fst he1
        simp [hc1]
      · rcases List.mem_cons.mp hcs2 with he2 | hrest
        · exfalso
          apply hcnot
          have hc2 : c = p2.1 := congrArg Prod.fst he2
          simp [hc2]
        · exact hrest
    have hpair := hsorted
    rw [hsp] at hpair
    have hd1 : descByCount p1 (c, wins e.votes c) :=
      (List.pairwise_cons.mp hpair).1 _ (List.mem_cons_of_mem _ hcrest)
    have hd2 : descByCount p2 (c, wins e.votes c) :=
      (List.pairwise_cons.mp (List.pairwise_cons.mp hpair).2).1 _ hcrest
    have hp1c : p1 ∈ trrCounts e :=
      hperm.mem_iff.mp (by rw [hsp]; exact List.mem_cons_self _ _)
    have hp2c : p2 ∈ trrCounts e :=
      hperm.mem_iff.mp
        (by rw [hsp]; exact List.mem_cons_of_mem _ (List.mem_cons_self _ _))
    have hp1w := (trrCounts_mem hp1c).2
    have hp2w := (trrCounts_mem hp2c).2
    rcases List.mem_cons.mp hf2 with rfl | hf3
    · rw [← hp1w]; exact hd1
    · rcases List.mem_cons.mp hf3 with rfl | hf4
      · rw [← hp2w]; exact hd2
      · simp at hf4

/-- Witness for the C4 amended theorem at the Ann 2, Ben 1, Cal 1 round. -/
theorem runoff_no_majority_starts_runoff_witness :
    eTrr.finalists = [] ∧ eTrr.votes ≠ [] ∧ 2 ≤ eTrr.candidates.length ∧
    2 * trrMax eTrr ≤ trrTotal eTrr ∧
    ((trrGetResult eTrr pickLast).1 = "RUNOFF" ∧
    (trrGetResult eTrr pickLast).2.votes = [] ∧
    (trrGetResult eTrr pickLast).2.firstRound = false ∧
    (trrGetResult eTrr pickLast).2.finalists =
      ((trrSortedDesc eTrr).map (fun pr => pr.1)).take 2 ∧
    (trrGetResult eTrr pickLast).2.finalists.length = 2 ∧
    (∀ c ∈ eTrr.candidates, c ∉ (trrGetResult eTrr pickLast).2.finalists →
      ∀ f ∈ (trrGetResult eTrr pickLast).2.finalists,
        wins eTrr.votes c ≤ wins eTrr.votes f)) :=
  ⟨rfl, by decide, by decide, by decide,
    runoff_no_majority_starts_runoff eTrr pickLast rfl (by decide) (by decide) (by decide)⟩

/-- C2 counterexample.  A reachable command-based election sits in active
voting with nominations closed; the leadership start-nominations command
then reopens nominations while voting stays active - the phases overlap -
and a ballot cast while nominations are open succeeds. -/
theorem voting_and_nomination_overlap :
    eCmd5.votingActive = true ∧
    eCmd5.isNominationOpen = false ∧
    canStartNominations govCmd eCmd5 "Alice" = true ∧
    startNominations eCmd5 1 = .ok eCmd6 ∧
    eCmd6.isNominationOpen = true ∧
    eCmd6.votingActive = true ∧
    (fptpVote eCmd6 "Dan" "Bob").isOk = true ∧
    EReach eCmd6 := by
  refine ⟨by decide, by decide, by decide, rfl, by decide, by decide, by decide, ?_⟩
  refine ⟨eCmd0, ⟨"elder", reqCmd, 1, 0, 0, rfl⟩, ?_⟩
  have h1 : EStep eCmd0 eCmd1 :=
    .startCmd govCmd eCmd0 eCmd1 "Alice" 0 (by decide) (by decide) (by decide) rfl
  have h2 : EStep eCmd1 eCmd2 :=
    .nomStep govCmd eCmd1 eCmd2 "Alice" "Bob" rfl
  have h3 : EStep eCmd2 eCmd3 :=
    .nomStep govCmd eCmd2 eCmd3 "Alice" "Carol" rfl
  have h4 : EStep eCmd3 eCmd4 :=
    .closeCmd govCmd eCmd3 eCmd4 "Alice" (by decide) (by decide) (by decide) rfl
  have h5 : EStep eCmd4 eCmd5 :=
    .startV eCmd4 ["Alice", "Bob", "Carol", "Dan"] 1 (by decide) (by decide) (by decide)
  have h6 : EStep eCmd5 eCmd6 :=
    .startCmd govCmd eCmd5 eCmd6 "Alice" 1 (by decide) (by decide) (by decide) rfl
  exact .head h1 (.head h2 (.head h3 (.head h4 (.head h5 (.head h6 .refl)))))

/-- Preservation of the C2 invariant along one program step: voting
implies at least two candidates, and a time-based election never has
nominations open while voting is active. -/
theorem estep_c2_inv {a b : Election} (h : EStep a b)
    (h1 : a.votingActive = true → 2 ≤ a.candidates.length)
    (h2 : a.nominationControl = "time_based" → a.isNominationOpen = true →
      a.votingActive = false) :
    (b.votingActive = true → 2 ≤ b.candidates.length) ∧
    (b.nominationControl = "time_based" → b.isNominationOpen = true →
      b.votingActive = false) := by
  cases h with
  | closeTime e e2 y hper hcl =>
    obtain ⟨_, hop2, hct2, hva2, hcd2, _⟩ := closeNominations_ok hcl
    refine ⟨fun hv => ?_, fun _ hop => ?_⟩
    · rw [hcd2]; exact h1 (hva2.symm.trans hv)
    · rw [hop2] at hop; exact absurd hop (by decide)
  | closeCmd g e e2 p hctrl hcan hop0 hcl =>
    obtain ⟨_, hop2, hct2, hva2, hcd2, _⟩ := closeNominations_ok hcl
    refine ⟨fun hv => ?_, fun _ hop => ?_⟩
    · rw [hcd2]; exact h1 (hva2.symm.trans hv)
    · rw [hop2] at hop; exact absurd hop (by decide)
  | startCmd g e e2 p y hctrl hcan hop0 hst =>
    obtain ⟨_, _, hct2, hva2, hcd2⟩ := startNominations_ok hst
    refine ⟨fun hv => ?_, fun hctl _ => ?_⟩
    · rw [hcd2]; exact h1 (hva2.symm.trans hv)
    · rw [hct2, hctrl] at hctl; exact absurd hctl (by decide)
  | nomStep g e e2 p c hn =>
    obtain ⟨_, _, _, _, hva2, hcd2, _⟩ := nominate_ok hn
    refine ⟨fun hv => ?_, fun _ _ => hva2⟩
    rw [hva2] at hv; exact absurd hv (by decide)
  | startV e players y hop hva hlen =>
    refine ⟨fun _ => ?_, fun _ hop2 => ?_⟩
    · simpa [startVote] using hlen
    · simp only [startVote] at hop2
      rw [hop] at hop2
      exact absurd hop2 (by decide)
  | castF e e2 p c hvar hvote =>
    obtain ⟨hva, hva2, hop2, hct2, hcd2, _⟩ := fptpVote_ok hvote
    refine ⟨fun _ => ?_, fun hctl hop => ?_⟩
    · rw [hcd2]; exact h1 hva
    · have := h2 (hct2.symm.trans hctl) (hop2.symm.trans hop)
      rw [hva] at this; exact absurd this (by decide)
  | castR e e2 p prefs hvar hvote =>
    obtain ⟨hva, _, _, hva2, hop2, hct2, hcd2, _⟩ := rankedVote_ok hvote
    refine ⟨fun _ => ?_, fun hctl hop => ?_⟩
    · rw [hcd2]; exact h1 hva
    · have := h2 (hct2.symm.trans hctl) (hop2.symm.trans hop)
      rw [hva] at this; exact absurd this (by decide)
  | castT e e2 p c hvar hvote =>
    obtain ⟨hva, hva2, hop2, hct2, hcd2, _⟩ := runoffVote_ok hvote
    refine ⟨fun _ => ?_, fun hctl hop => ?_⟩
    · rw [hcd2]; exact h1 hva
    · have := h2 (hct2.symm.trans hctl) (hop2.symm.trans hop)
      rw [hva] at this; exact absurd this (by decide)

/-- C2 amended.  On every reachable election, voting is activated only
from nominations-closed with at least two candidates (so a voting-active
election always carries at least two), and for time-based elections the
phases indeed never overlap and every cast-ballot attempt during an open
nomination phase fails.  (The counterexample shows the overlap and
cast-success parts fail for command-based elections, whose nominations a
leadership command can reopen during voting.) -/
theorem voting_only_from_closed_nominations (e : Election) (hr : EReach e) :
    (e.votingActive = true → 2 ≤ e.candidates.length) ∧
    (e.nominationControl = "time_based" → e.isNominationOpen = true →
      e.votingActive = false ∧
      (∀ p c, fptpVote e p c = .error "Voting is not active") ∧
      (∀ p prefs, rankedVote e p prefs = .error "Voting is not active") ∧
      (∀ p c, runoffVote e p c = .error "Voting is not active")) := by
  obtain ⟨e0, ⟨role, req, seat, y, i, rfl⟩, hrtg⟩ := hr
  have hinv : (e.votingActive = true → 2 ≤ e.candidates.length) ∧
      (e.nominationControl = "time_based" → e.isNominationOpen = true →
        e.votingActive = false) := by
    induction hrtg with
    | refl =>
      refine ⟨fun hv => ?_, fun _ _ => newElection_votingActive _ _ _ _ _⟩
      rw [newElection_votingActive] at hv
      exact absurd hv (by decide)
    | tail hab hbc ih => exact estep_c2_inv hbc ih.1 ih.2
  refine ⟨hinv.1, fun hctl hop => ?_⟩
  have hva := hinv.2 hctl hop
  exact ⟨hva, fptpVote_inactive hva, rankedVote_inactive hva, runoffVote_inactive hva⟩

/-- Witness for the C2 amended theorem at a freshly created election. -/
theorem voting_only_from_closed_nominations_witness :
    EReach eNew0 ∧
    ((eNew0.votingActive = true → 2 ≤ eNew0.candidates.length) ∧
      (eNew0.nominationControl = "time_based" → eNew0.isNominationOpen = true →
        eNew0.votingActive = false ∧
        (∀ p c, fptpVote eNew0 p c = .error "Voting is not active") ∧
        (∀ p prefs, rankedVote eNew0 p prefs = .error "Voting is not active") ∧
        (∀ p c, runoffVote eNew0 p c = .error "Voting is not active"))) := by
  have hreach : EReach eNew0 := ⟨eNew0, ⟨"chieftain", reqTwoSeat, 1, 0, 0, rfl⟩, .refl⟩
  exact ⟨hreach, voting_only_from_closed_nominations eNew0 hreach⟩

/-- C1.  The claim reads every variant as completing only once the year
moved strictly past voting_start_year.  The ranked variant contradicts
it: with voting active since year 5 and all ballots cast within year 5,
RankedChoiceVoting.is_complete already returns true, and the actual
call process_votes makes, vote.is_complete(sim), is a TypeError for this
variant because its override takes no argument. -/
theorem ranked_complete_ignores_year :
    rankedIsComplete eC1 = true ∧
    eC1.votingActive = true ∧
    eC1.votingStartYear = some 5 ∧
    ¬ ((5 : Int) > 5) ∧
    managerIsComplete eC1 5 =
      .error "TypeError: is_complete() takes 1 positional argument but 2 were given" := by
  refine ⟨rfl, rfl, rfl, by decide, rfl⟩

/-- C3.  Two consecutive initiate_votes calls (the program issues them
at game start, at every prompt and on opening a role interface) queue
seat 2 of the two-seat office twice: the vacancy count ignores seats
already queued, so the pending-seat queue holds duplicates, against the
claim that a seat number occurs at most once in its queue. -/
theorem initiate_votes_duplicates_queued_seat :
    qLookup (initiateVotes (initiateVotes mgr0)).queuedSeats "chieftain" = [2, 2] ∧
    ¬ (qLookup (initiateVotes (initiateVotes mgr0)).queuedSeats "chieftain").Nodup := by
  exact ⟨by decide, by decide⟩

/-- C5 counterexample.  At year 2 the seat-1 vote is complete and its
commit is rejected while the seat-2 election still has nominations open.
The failure handler requeues seat 1 at the front, but the immediately
following re-scan creates no seat-1 election - the open seat-2
nomination blocks the pop - and the pass ends with a fresh election for
the newer seat 2 only, seat 1 still waiting at the queue front. -/
theorem commit_failure_rescan_skips_requeued_seat :
    mgrD.activeVotes.map (fun e => (e.seatNumber, e.votingActive, e.isNominationOpen)) =
      [(1, true, false), (2, false, true)] ∧
    mgrE = .ok mgrE2 ∧
    mgrE2.activeVotes.map (fun e => (e.seatNumber, e.isNominationOpen)) = [(2, true)] ∧
    qLookup mgrE2.queuedSeats "chieftain" = [1, 2, 2, 1, 2] := by
  exact ⟨by decide, rfl, by decide, by decide⟩

/-- C9 counterexample.  close_nominations succeeds on the open
command-based election; the leadership command filter then accepts the
closed election again (its guard only excludes currently open ones), and
start_nominations succeeds, returning it to the nominations-open state. -/
theorem closed_nominations_reopen :
    closeNominations eCl0 = .ok eCl1 ∧
    eCl1.isNominationOpen = false ∧
    canStartNominations govCmd eCl1 "Alice" = true ∧
    startNominations eCl1 7 = .ok eCl2 ∧
    eCl2.isNominationOpen = true := by
  exact ⟨rfl, by decide, by decide, rfl, by decide⟩

/-- C4 counterexample.  With ballots Ann 2, Ben 1, Cal 1 there is no
strict majority and Ben and Cal tie for second place, yet the finalists
are always the first two of the stable descending sort - Ann and Ben -
even under a selector that would resolve a random tie-break toward Cal:
the runoff branch never consults the randomness source. -/
theorem runoff_tie_break_deterministic :
    wins eTrr.votes "Ben" = wins eTrr.votes "Cal" ∧
    2 * trrMax eTrr ≤ trrTotal eTrr ∧
    (trrGetResult eTrr pickLast).1 = "RUNOFF" ∧
    eTrr2.finalists = ["Ann", "Ben"] ∧
    (trrGetResult eTrr pick0).2.finalists = ["Ann", "Ben"] ∧
    "Cal" ∉ eTrr2.finalists := by
  exact ⟨by decide, by decide, rfl, by decide, by decide, by decide⟩

end GovGen
